import Mathlib

/-!
# String primitives of the Dolphin Smalltalk VM (StrgPrim.cpp)

A shallow embedding of `Interpreter::memmove`, `primitiveReplaceBytes`,
`primitiveIndirectReplaceBytes`, `primitiveStringNextIndexOfFromTo`,
`primitiveStringAt` and `primitiveStringAtPut`, followed by theorems about them.

Modelling conventions
* byte memory is a total map from addresses (`Nat`) to bytes; pointer arithmetic
  is arithmetic on addresses;
* C `int` arithmetic that the code performs on untrusted operands is wrapped to
  32 bits (`toInt32`), the conversion to `size_t` is `toSizeT`;
* a primitive returns `none` exactly where the C++ code would use a reference of
  the wrong kind without having tested it: an immediate integer dereferenced as
  an object descriptor (the receiver slot, which the callers guarantee to hold a
  heap object), or the code point field of a Character read as an integer when
  it holds a heap reference; otherwise it returns `some` of a success (new stack
  pointer, new state) or of a failure (code, state);
* `ASSERT`s are debug-build only and are not part of the model.
-/

namespace Dolphin

/-- A byte of object memory (the C++ `BYTE` / `char` cell). -/
abbrev BYTE := Fin 256

/-- Conversion of a C `int` to a byte (`static_cast<char>`, or the implicit
narrowing of an assignment to a `char` cell): the low eight bits. -/
def toBYTE (v : Int) : BYTE := ⟨(v % 256).toNat, by omega⟩

/-- Wrap a mathematical integer to the value a 32-bit two's complement `int`
holds (`int` and `SMALLINTEGER` arithmetic, `static_cast<int>` of a machine word). -/
def toInt32 (v : Int) : Int := (v + 2147483648) % 4294967296 - 2147483648

/-- Conversion of a C `int` to the unsigned 32-bit `size_t` / `MWORD`. -/
def toSizeT (v : Int) : Nat := (v % 4294967296).toNat

/-- Modelled from the spec: the `Oop` typedef and the tag macros
`ObjectMemoryIsIntegerObject`, `ObjectMemoryIntegerValueOf` and
`ObjectMemoryIntegerObjectOf` are declared in headers outside the source slice.
A reference is either an immediate integer, or a heap reference to an object
descriptor (here: its index in the object table). Matching on the constructor
plays the role of the tag test followed by the value extraction. -/
inductive Oop where
  | smallInteger (value : Int)
  | pointer (ote : Nat)
  deriving DecidableEq

/-- Modelled from the spec: `ObjectMemoryIsIntegerObject`, the test for an
immediate integer. -/
def ObjectMemoryIsIntegerObject : Oop → Bool
  | .smallInteger _ => true
  | .pointer _ => false

/-- Modelled from the spec: `ObjectMemoryIntegerObjectOf`, the immediate integer
reference of a value. -/
def ObjectMemoryIntegerObjectOf (value : Int) : Oop := .smallInteger value

/-- Modelled from the spec: `ZeroPointer`, the immediate zero (the not-found
sentinel of the search primitive). -/
def ZeroPointer : Oop := ObjectMemoryIntegerObjectOf 0

/-- Modelled from the spec: the object descriptor (`OTE`, declared in a header
outside the source slice). `m_location` is the address of the body, `m_oteClass`
the descriptor index of the class, `m_size` the machine word whose top bit is the
immutability flag, and `isBytes` the answer of `OTE::isBytes()`. -/
structure OTE where
  m_location : Nat
  m_oteClass : Nat
  m_size : Nat
  isBytes : Bool

/-- Modelled from the spec: `OTE::SizeMask`, the mask that removes the
mutability sign bit of the size word. -/
def OTE.SizeMask : Nat := 0x7FFFFFFF

/-- Modelled from the spec: `OTE::bytesSize()`, the declared length masking
mutability. -/
def OTE.bytesSize (o : OTE) : Nat := o.m_size &&& OTE.SizeMask

/-- Modelled from the spec: `OTE::bytesSizeForUpdate()`, the raw signed length,
negative when the object is immutable. -/
def OTE.bytesSizeForUpdate (o : OTE) : Int := toInt32 o.m_size

/-- Modelled from the spec: an object is immutable when the sign bit of its size
word is set. -/
def OTE.isImmutable (o : OTE) : Bool := decide (2147483648 ≤ o.m_size % 4294967296)

/-- Modelled from the spec: the body of a class (`Behavior`), of which only the
predicate `isIndirect()` is used. -/
structure Behavior where
  isIndirect : Bool

/-- Modelled from the spec: the body of an indirect object (`ExternalAddress`):
one raw pointer to memory that the object memory does not own. -/
structure ExternalAddress where
  m_pointer : Nat

/-- Modelled from the spec: the body of a `Character`: its code point, held as a
reference. -/
structure Character where
  m_codePoint : Oop

/-- The state the primitives see: the operand stack, the object table, the typed
views of object bodies by address (`m_location` reinterpreted as a `Behavior`, an
`ExternalAddress` or a `Character`), the byte memory, the class pointers the code
compares against, and the allocator collaborator `ST::Character::New`. -/
structure Interpreter where
  stack : Int → Oop
  ote : Nat → OTE
  behavior : Nat → Behavior
  externalAddress : Nat → ExternalAddress
  character : Nat → Character
  bytes : Nat → BYTE
  ClassCharacter : Nat
  ClassSmallInteger : Nat
  CharacterNew : BYTE → Nat

/-- Outcome of a primitive: success with the new stack pointer, or the failure
code passed to `primitiveFailure`; both carry the state the caller sees next. -/
inductive PrimResult where
  | success (sp : Int) (st : Interpreter)
  | failure (code : Nat) (st : Interpreter)

/-- Modelled from the spec: `primitiveFailure(code)` (defined in
InterprtPrim.inl, outside the source slice) returns the null stack position
together with the failure code. -/
def primitiveFailure (s : Interpreter) (code : Nat) : PrimResult := .failure code s

/-- Modelled from the spec: `ObjectMemory::fetchClassOf`: the class of an
immediate integer is the SmallInteger class, the class of a heap object is the
class field of its descriptor. -/
def fetchClassOf (s : Interpreter) : Oop → Nat
  | .smallInteger _ => s.ClassSmallInteger
  | .pointer p => (s.ote p).m_oteClass

/-- Modelled from the spec: `memcpy` of `<string.h>`, as an ascending
byte-by-byte copy. -/
def memcpy (mem : Nat → BYTE) (dst src : Nat) : Nat → Nat → BYTE
  | 0 => mem
  | count + 1 => memcpy (Function.update mem dst (mem src)) (dst + 1) (src + 1) count

/-- The `while (count)` loop of `Interpreter::memmove`: `*dst = *src; dst--;
src--; count--`. -/
def memmoveLoop (mem : Nat → BYTE) (dst src : Nat) : Nat → Nat → BYTE
  | 0 => mem
  | count + 1 => memmoveLoop (Function.update mem dst (mem src)) (dst - 1) (src - 1) count

/-- `Interpreter::memmove(dst, src, count)`. -/
def memmove (mem : Nat → BYTE) (dst src count : Nat) : Nat → BYTE :=
  if dst ≤ src ∨ dst ≥ src + count then
    memcpy mem dst src count
  else
    memmoveLoop mem (dst + count - 1) (src + count - 1) count

/-- The contract of the bulk copy in the words of the specification: read all of
`src` into a temporary buffer, then write the buffer to `dst`. -/
def copyViaTemporary (mem : Nat → BYTE) (dst src count : Nat) : Nat → BYTE :=
  let temporary : Nat → BYTE := fun k => mem (src + k)
  fun a => if dst ≤ a ∧ a < dst + count then temporary (a - dst) else mem a

/-- `Interpreter::primitiveReplaceBytes(sp)`: receiver at `sp - 4`, argument at
`sp - 3`, `start` at `sp - 2`, `stop` at `sp - 1`, `startAt` at `sp`. -/
def primitiveReplaceBytes (s : Interpreter) (sp : Int) : Option PrimResult :=
  match s.stack sp with
  | .pointer _ => some (primitiveFailure s 0)
  | .smallInteger startAt =>
  match s.stack (sp - 1) with
  | .pointer _ => some (primitiveFailure s 1)
  | .smallInteger stop =>
  match s.stack (sp - 2) with
  | .pointer _ => some (primitiveFailure s 2)
  | .smallInteger start =>
  match s.stack (sp - 3) with
  | .smallInteger _ => some (primitiveFailure s 3)
  | .pointer argPointer =>
  if !(s.ote argPointer).isBytes then some (primitiveFailure s 3) else
  if stop ≥ start then
    if startAt < 1 ∨ start < 1 then some (primitiveFailure s 4) else
    -- the code from `BytesOTE* receiverPointer = ...` down to the common exit
    let fromReceiver : Nat → Option PrimResult := fun pTo =>
      match s.stack (sp - 4) with
      | .smallInteger _ => none
      | .pointer receiverPointer =>
        let length : Int := (s.ote receiverPointer).bytesSize
        let stopAt : Int := toInt32 (toInt32 (startAt + stop) - start)
        if stopAt > length then some (primitiveFailure s 4) else
        let pFrom : Nat := (s.ote receiverPointer).m_location
        some (.success (sp - 4)
          { s with
            bytes := memmove s.bytes ((pTo : Int) + start - 1).toNat
              ((pFrom : Int) + startAt - 1).toNat (toSizeT (toInt32 (toInt32 (stop - start) + 1)))
            stack := Function.update s.stack (sp - 4) (.pointer argPointer) })
    let behavior := s.behavior (s.ote (s.ote argPointer).m_oteClass).m_location
    if behavior.isIndirect then
      fromReceiver (s.externalAddress (s.ote argPointer).m_location).m_pointer
    else
      let length : Int := (s.ote argPointer).bytesSizeForUpdate
      if stop > length then some (primitiveFailure s 4) else
      fromReceiver (s.ote argPointer).m_location
  else
    some (.success (sp - 4)
      { s with stack := Function.update s.stack (sp - 4) (.pointer argPointer) })

/-- `Interpreter::primitiveIndirectReplaceBytes(sp)`: same stack layout, the
receiver is an address object. -/
def primitiveIndirectReplaceBytes (s : Interpreter) (sp : Int) : Option PrimResult :=
  match s.stack sp with
  | .pointer _ => some (primitiveFailure s 0)
  | .smallInteger startAt =>
  match s.stack (sp - 1) with
  | .pointer _ => some (primitiveFailure s 1)
  | .smallInteger stop =>
  match s.stack (sp - 2) with
  | .pointer _ => some (primitiveFailure s 2)
  | .smallInteger start =>
  match s.stack (sp - 3) with
  | .smallInteger _ => some (primitiveFailure s 3)
  | .pointer argPointer =>
  if !(s.ote argPointer).isBytes then some (primitiveFailure s 3) else
  if stop ≥ start then
    if start < 1 ∨ startAt < 1 then some (primitiveFailure s 4) else
    match s.stack (sp - 4) with
    | .smallInteger _ => none
    | .pointer receiverPointer =>
      let pFrom : Nat := (s.externalAddress (s.ote receiverPointer).m_location).m_pointer
      -- the call of memmove and the common exit
      let copyTo : Nat → Option PrimResult := fun pTo =>
        some (.success (sp - 4)
          { s with
            bytes := memmove s.bytes ((pTo : Int) + start - 1).toNat
              ((pFrom : Int) + startAt - 1).toNat (toSizeT (toInt32 (toInt32 (stop - start) + 1)))
            stack := Function.update s.stack (sp - 4) (.pointer argPointer) })
      let behavior := s.behavior (s.ote (s.ote argPointer).m_oteClass).m_location
      if behavior.isIndirect then
        copyTo (s.externalAddress (s.ote argPointer).m_location).m_pointer
      else
        let length : Int := (s.ote argPointer).bytesSize
        if stop > length then some (primitiveFailure s 4) else
        copyTo (s.ote argPointer).m_location
  else
    some (.success (sp - 4)
      { s with stack := Function.update s.stack (sp - 4) (.pointer argPointer) })

/-- The `while (from < to)` loop of `primitiveStringNextIndexOfFromTo`, started
with `answer = ZeroPointer`; `m_characters` is the receiver body indexed from 0.
The first argument bounds the number of iterations; the primitive passes
`to - from`, which the loop cannot exceed. -/
def nextIndexOfLoop (m_characters : Nat → BYTE) (charValue : BYTE) (to_ : Int) :
    Nat → Int → Oop
  | 0, _ => ZeroPointer
  | fuel + 1, from_ =>
    if from_ < to_ then
      if m_characters from_.toNat = charValue then ObjectMemoryIntegerObjectOf (from_ + 1)
      else nextIndexOfLoop m_characters charValue to_ fuel (from_ + 1)
    else ZeroPointer

/-- `Interpreter::primitiveStringNextIndexOfFromTo(sp)`: receiver at `sp - 3`,
`value` at `sp - 2`, `from` at `sp - 1`, `to` at `sp`. -/
def primitiveStringNextIndexOfFromTo (s : Interpreter) (sp : Int) : Option PrimResult :=
  match s.stack sp with
  | .pointer _ => some (primitiveFailure s 0)
  | .smallInteger to_ =>
  match s.stack (sp - 1) with
  | .pointer _ => some (primitiveFailure s 1)
  | .smallInteger from_ =>
  let valuePointer := s.stack (sp - 2)
  if fetchClassOf s valuePointer = s.ClassCharacter ∧ to_ ≥ from_ then
    match s.stack (sp - 3) with
    | .smallInteger _ => none
    | .pointer receiverPointer =>
      let length : Int := (s.ote receiverPointer).bytesSize
      if from_ < 1 ∨ to_ > length then some (primitiveFailure s 2) else
      match valuePointer with
      | .smallInteger _ => none
      | .pointer oteChar =>
        match (s.character (s.ote oteChar).m_location).m_codePoint with
        | .pointer _ => none
        | .smallInteger codePoint =>
          let charValue : BYTE := toBYTE codePoint
          let chars : Nat := (s.ote receiverPointer).m_location
          let answer := nextIndexOfLoop (fun i => s.bytes (chars + i)) charValue to_
            (to_ - (from_ - 1)).toNat (from_ - 1)
          some (.success (sp - 3) { s with stack := Function.update s.stack (sp - 3) answer })
  else
    some (.success (sp - 3) { s with stack := Function.update s.stack (sp - 3) ZeroPointer })

/-- `Interpreter::primitiveStringAt(sp)`: receiver at `sp - 1`, index at `sp`. -/
def primitiveStringAt (s : Interpreter) (sp : Int) : Option PrimResult :=
  match s.stack sp with
  | .smallInteger index =>
    match s.stack (sp - 1) with
    | .smallInteger _ => none
    | .pointer oteReceiver =>
      if index > 0 ∧ toSizeT index ≤ (s.ote oteReceiver).m_size &&& OTE.SizeMask then
        let psz : Nat := (s.ote oteReceiver).m_location
        let oteResult := s.CharacterNew (s.bytes ((psz : Int) + (index - 1)).toNat)
        some (.success (sp - 1)
          { s with stack := Function.update s.stack (sp - 1) (.pointer oteResult) })
      else
        some (primitiveFailure s 1)
  | .pointer _ => some (primitiveFailure s 0)

/-- `Interpreter::primitiveStringAtPut(sp)`: receiver at `sp - 2`, index at
`sp - 1`, value at `sp`. -/
def primitiveStringAtPut (s : Interpreter) (sp : Int) : Option PrimResult :=
  match s.stack (sp - 2) with
  | .smallInteger _ => none
  | .pointer oteReceiver =>
  let psz : Nat := (s.ote oteReceiver).m_location
  match s.stack (sp - 1) with
  | .smallInteger index =>
    let receiverSize : Int := toInt32 (s.ote oteReceiver).m_size
    if index > 0 ∧ index ≤ receiverSize then
      match s.stack sp with
      | .smallInteger _ => some (primitiveFailure s 2)
      | .pointer oopValue =>
        if (s.ote oopValue).m_oteClass = s.ClassCharacter then
          match (s.character (s.ote oopValue).m_location).m_codePoint with
          | .pointer _ => none
          | .smallInteger codePoint =>
            some (.success (sp - 2)
              { s with
                bytes := Function.update s.bytes ((psz : Int) + (index - 1)).toNat (toBYTE codePoint)
                stack := Function.update s.stack (sp - 2) (s.stack sp) })
        else
          some (primitiveFailure s 2)
    else
      some (primitiveFailure s 1)
  | .pointer _ => some (primitiveFailure s 0)

/-- The byte of the object with descriptor index `o` at 1-based index `i`, read
through the inline body (`m_location->m_fields[i - 1]`). -/
def byteAt (s : Interpreter) (o : Nat) (i : Int) : BYTE :=
  s.bytes (((s.ote o).m_location : Int) + (i - 1)).toNat

/-- The class of the object with descriptor index `o` is indirect
(`o->m_oteClass->m_location->isIndirect()`). -/
def isIndirectObject (s : Interpreter) (o : Nat) : Bool :=
  (s.behavior (s.ote (s.ote o).m_oteClass).m_location).isIndirect

/-- Modelled from the spec: the values an immediate integer can hold, the 31-bit
SmallInteger range of a 32-bit reference word with one tag bit. -/
def isSmallIntegerValue (v : Int) : Prop := -1073741824 ≤ v ∧ v ≤ 1073741823

instance (v : Int) : Decidable (isSmallIntegerValue v) := by
  unfold isSmallIntegerValue
  infer_instance

/-! ## A concrete object memory

Used to run the primitives on explicit inputs. Descriptor 1 is a mutable byte
object of 8 bytes at address 100, descriptor 2 an immutable byte object of 4 bytes
at address 200, descriptor 3 an address object (body at 300) pointing at address
100; their classes are descriptors 5 (bytes held inline) and 6 (indirect).
Descriptor `1000 + b` is the Character of code point `b`, of class 7. The byte at
address `a` holds `a mod 256`. -/

/-- The operand stack holding `slots` from position 0 upwards. -/
def exampleStack (slots : List Oop) : Int → Oop :=
  fun i => slots.getD i.toNat (.smallInteger 0)

/-- The object table of the concrete object memory. -/
def exampleTable (o : Nat) : OTE :=
  if o = 1 then { m_location := 100, m_oteClass := 5, m_size := 8, isBytes := true }
  else if o = 2 then
    { m_location := 200, m_oteClass := 5, m_size := 0x80000004, isBytes := true }
  else if o = 3 then { m_location := 300, m_oteClass := 6, m_size := 4, isBytes := true }
  else if o = 5 then { m_location := 500, m_oteClass := 9, m_size := 0, isBytes := false }
  else if o = 6 then { m_location := 600, m_oteClass := 9, m_size := 0, isBytes := false }
  else { m_location := o + 1000, m_oteClass := 7, m_size := 1, isBytes := false }

/-- The concrete object memory with the operand stack `slots`. -/
def exampleInterpreter (slots : List Oop) : Interpreter where
  stack := exampleStack slots
  ote := exampleTable
  behavior := fun a => { isIndirect := decide (a = 600) }
  externalAddress := fun _ => { m_pointer := 100 }
  character := fun a => { m_codePoint := .smallInteger ((a : Int) - 2000) }
  bytes := fun a => toBYTE a
  ClassCharacter := 7
  ClassSmallInteger := 8
  CharacterNew := fun b => 1000 + b.val

/-- Descriptor 1 as receiver and as argument, `start = 3`, `stop = 6`,
`startAt = 1`: bytes 1..4 are to be copied onto bytes 3..6 of the same object. -/
def exampleOverlap : Interpreter :=
  exampleInterpreter [.pointer 1, .pointer 1, .smallInteger 3, .smallInteger 6, .smallInteger 1]

/-- The state after the copy requested in `exampleOverlap`. -/
def exampleAfterOverlap : Interpreter :=
  { exampleOverlap with
    bytes := memmove exampleOverlap.bytes 102 100 4
    stack := Function.update exampleOverlap.stack 0 (.pointer 1) }

/-- The empty range of the specification: any byte object as argument (here the
immutable descriptor 2), `start = 0`, `stop = -5`, `startAt = 0`. -/
def exampleEmptyRange : Interpreter :=
  exampleInterpreter
    [.pointer 1, .pointer 2, .smallInteger 0, .smallInteger (-5), .smallInteger 0]

/-- Bytes 1..2 of descriptor 1 are to be copied onto bytes 3..4 of the mutable
descriptor 1 (`start = 3`, `stop = 4`, `startAt = 1`). -/
def exampleDirect : Interpreter :=
  exampleInterpreter [.pointer 1, .pointer 1, .smallInteger 3, .smallInteger 4, .smallInteger 1]

/-- The address object 3 (pointing at address 100) as receiver, the immutable
byte object 2 as argument, `start = 1`, `stop = 2`, `startAt = 1`. -/
def exampleImmutableArgument : Interpreter :=
  exampleInterpreter [.pointer 3, .pointer 2, .smallInteger 1, .smallInteger 2, .smallInteger 1]

/-- Several slots are of the wrong kind at once: `startAt = 1` is an integer,
`stop` and `start` are heap references, the argument is an immediate. -/
def exampleTypeErrors : Interpreter :=
  exampleInterpreter [.pointer 1, .smallInteger 7, .pointer 1, .pointer 1, .smallInteger 1]

/-- Search of the mutable byte object 1 (bytes 100..107) for the Character of
code point 103 between `from = 2` and `to = 6`. -/
def exampleSearch : Interpreter :=
  exampleInterpreter [.pointer 1, .pointer 1103, .smallInteger 2, .smallInteger 6]

/-- A search whose value is the immediate 5 (not a Character) and whose `to`
slot holds a heap reference instead of an integer; `from = 1`. -/
def exampleSearchToNotInteger : Interpreter :=
  exampleInterpreter [.pointer 1, .smallInteger 5, .smallInteger 1, .pointer 1]

/-- A search whose value is the immediate 5 (not a Character) and whose `from`
slot holds a heap reference instead of an integer; `to = 3`. -/
def exampleSearchFromNotInteger : Interpreter :=
  exampleInterpreter [.pointer 1, .smallInteger 5, .pointer 1, .smallInteger 3]

/-- A search with `to = 2` below `from = 1000000`, for a Character, on the
receiver 1 of 8 bytes. -/
def exampleSearchEmptyRange : Interpreter :=
  exampleInterpreter [.pointer 1, .pointer 1103, .smallInteger 1000000, .smallInteger 2]

/-- A search of the whole immutable byte object 2 (4 bytes, 200..203) for the
Character of code point 203: `from = 1`, `to = 4`. -/
def exampleSearchImmutable : Interpreter :=
  exampleInterpreter [.pointer 2, .pointer 1203, .smallInteger 1, .smallInteger 4]

/-- The state a primitive hands back, on success and on failure. -/
def PrimResult.state : PrimResult → Interpreter
  | .success _ st => st
  | .failure _ st => st

/-- Modelled from the spec: the contract of the allocator collaborator
`ST::Character::New` (`newCharacter(byteValue) → reference`): the reference it
answers denotes an object of class Character whose code point is the byte
value. -/
def CharacterNewContract (s : Interpreter) : Prop :=
  ∀ b : BYTE, (s.ote (s.CharacterNew b)).m_oteClass = s.ClassCharacter ∧
    (s.character (s.ote (s.CharacterNew b)).m_location).m_codePoint =
      .smallInteger (b.val : Int)

/-- The inline bodies of the objects `a` and `b` do not share an address: what
being different objects means for two byte objects of the object memory. -/
def disjointBodies (s : Interpreter) (a b : Nat) : Prop :=
  (s.ote a).m_location + (s.ote a).bytesSize ≤ (s.ote b).m_location ∨
  (s.ote b).m_location + (s.ote b).bytesSize ≤ (s.ote a).m_location

instance (s : Interpreter) (a b : Nat) : Decidable (disjointBodies s a b) := by
  unfold disjointBodies
  infer_instance

/-- Indexed read of the immutable byte object 2 (4 bytes) at its last index. -/
def exampleAtImmutable : Interpreter := exampleInterpreter [.pointer 2, .smallInteger 4]

/-- Indexed read with a heap reference in the index slot. -/
def exampleAtNotInteger : Interpreter := exampleInterpreter [.pointer 1, .pointer 1]

/-- Indexed read of the byte object 1 (8 bytes) at index 0. -/
def exampleAtZero : Interpreter := exampleInterpreter [.pointer 1, .smallInteger 0]

/-- Indexed read of the byte object 1 (8 bytes) at index 9. -/
def exampleAtBeyond : Interpreter := exampleInterpreter [.pointer 1, .smallInteger 9]

/-- Indexed write of the Character of code point 65 at index 1 of the immutable
byte object 2. -/
def exampleAtPutImmutable : Interpreter :=
  exampleInterpreter [.pointer 2, .smallInteger 1, .pointer 1065]

/-- Indexed write of the Character of code point 65 at index 3 of the mutable
byte object 1. -/
def exampleAtPut : Interpreter :=
  exampleInterpreter [.pointer 1, .smallInteger 3, .pointer 1065]

/-- Indexed write at index 9 of the byte object 1 (8 bytes) of a value that is
an immediate integer, not a Character. -/
def exampleAtPutBeyond : Interpreter :=
  exampleInterpreter [.pointer 1, .smallInteger 9, .smallInteger 65]

/-- The immutable byte object 2 as receiver, the mutable byte object 1 as
argument, `start = 1`, `stop = 2`, `startAt = 1`. -/
def exampleImmutableReceiver : Interpreter :=
  exampleInterpreter [.pointer 2, .pointer 1, .smallInteger 1, .smallInteger 2, .smallInteger 1]

/-- The state after the copy requested in `exampleImmutableReceiver`: bytes 1..2
of the receiver (addresses 200, 201) have been copied to addresses 100, 101. -/
def exampleAfterImmutableReceiver : Interpreter :=
  { exampleImmutableReceiver with
    bytes := memmove exampleImmutableReceiver.bytes 100 200 2
    stack := Function.update exampleImmutableReceiver.stack 0 (.pointer 1) }

/-- Indexed write, at index 3 of the mutable byte object 1, of the Character
with descriptor 1321, whose code point is 321 and does not fit a byte. -/
def exampleAtPutWide : Interpreter :=
  exampleInterpreter [.pointer 1, .smallInteger 3, .pointer 1321]

/-! ## The bulk copy -/

theorem memcpy_outside (count : Nat) : ∀ (mem : Nat → BYTE) (dst src a : Nat),
    (a < dst ∨ dst + count ≤ a) → memcpy mem dst src count a = mem a := by
  induction count with
  | zero => intro mem dst src a _; rfl
  | succ n ih =>
    intro mem dst src a h
    rw [memcpy, ih _ _ _ _ (by omega), Function.update_noteq (by omega)]

theorem memcpy_inside (count : Nat) : ∀ (mem : Nat → BYTE) (dst src k : Nat),
    (dst ≤ src ∨ src + count ≤ dst) → k < count →
    memcpy mem dst src count (dst + k) = mem (src + k) := by
  induction count with
  | zero => intro mem dst src k _ hk; omega
  | succ n ih =>
    intro mem dst src k h hk
    rw [memcpy]
    rcases Nat.eq_zero_or_pos k with hk0 | hkpos
    · subst hk0
      rw [memcpy_outside _ _ _ _ _ (by omega)]
      simp
    · have e1 : dst + k = dst + 1 + (k - 1) := by omega
      have e2 : src + k = src + 1 + (k - 1) := by omega
      rw [e1, e2, ih _ _ _ _ (by omega) (by omega), Function.update_noteq (by omega)]

theorem memmoveLoop_outside (count : Nat) : ∀ (mem : Nat → BYTE) (dst src a : Nat),
    count ≤ dst + 1 → (dst < a ∨ a + count ≤ dst) → memmoveLoop mem dst src count a = mem a := by
  induction count with
  | zero => intro mem dst src a _ _; rfl
  | succ n ih =>
    intro mem dst src a hd h
    rw [memmoveLoop, ih _ _ _ _ (by omega) (by omega), Function.update_noteq (by omega)]

theorem memmoveLoop_inside (count : Nat) : ∀ (mem : Nat → BYTE) (dst src k : Nat),
    count ≤ src + 1 → src < dst → k < count →
    memmoveLoop mem dst src count (dst - k) = mem (src - k) := by
  induction count with
  | zero => intro mem dst src k _ _ hk; omega
  | succ n ih =>
    intro mem dst src k hs h hk
    rw [memmoveLoop]
    rcases Nat.eq_zero_or_pos k with hk0 | hkpos
    · subst hk0
      rw [memmoveLoop_outside _ _ _ _ _ (by omega) (by omega)]
      simp
    · have e1 : dst - k = dst - 1 - (k - 1) := by omega
      have e2 : src - k = src - 1 - (k - 1) := by omega
      rw [e1, e2, ih _ _ _ _ (by omega) (by omega) (by omega), Function.update_noteq (by omega)]

/-- The bulk copy refines the temporary-buffer contract, at every address. -/
theorem memmove_copyViaTemporary (mem : Nat → BYTE) (dst src count : Nat) :
    memmove mem dst src count = copyViaTemporary mem dst src count := by
  funext a
  unfold memmove copyViaTemporary
  by_cases hin : dst ≤ a ∧ a < dst + count
  · simp only [hin, and_self, if_true]
    obtain ⟨h1, h2⟩ := hin
    split
    · next h =>
      have e : a = dst + (a - dst) := by omega
      conv_lhs => rw [e]
      exact memcpy_inside _ _ _ _ _ (by omega) (by omega)
    · next h =>
      have e1 : a = (dst + count - 1) - (dst + count - 1 - a) := by omega
      have e2 : src + (a - dst) = (src + count - 1) - (dst + count - 1 - a) := by omega
      rw [e2]
      conv_lhs => rw [e1]
      exact memmoveLoop_inside _ _ _ _ _ (by omega) (by omega) (by omega)
  · simp only [hin, if_false]
    split
    · next h => exact memcpy_outside _ _ _ _ _ (by omega)
    · next h => exact memmoveLoop_outside _ _ _ _ _ (by omega) (by omega)

/-- C1: for every memory, every count and every pair of start positions,
`memmove` produces exactly the memory obtained by reading the `count` source
bytes into a temporary buffer first and writing the buffer to `dst` afterwards;
in particular byte `dst + k` becomes the old byte `src + k` for every
`k < count`. -/
theorem memmove_eq_copyViaTemporary (mem : Nat → BYTE) (dst src count : Nat) :
    memmove mem dst src count = copyViaTemporary mem dst src count ∧
    ∀ k, k < count → memmove mem dst src count (dst + k) = mem (src + k) := by
  have key := memmove_copyViaTemporary mem dst src count
  refine ⟨key, fun k hk => ?_⟩
  rw [key]
  simp [copyViaTemporary, hk]

/-- Witness of C1: destination 102 above source 100 with overlap, four bytes;
byte 105 afterwards is the old byte 103. -/
theorem memmove_eq_copyViaTemporary_witness :
    memmove exampleOverlap.bytes 102 100 4 (102 + 3) = exampleOverlap.bytes (100 + 3) :=
  (memmove_eq_copyViaTemporary exampleOverlap.bytes 102 100 4).2 3 (by decide)

/-! ## The replace primitives -/

/-- The direct primitive on integer operands and a byte-bodied, not indirect
argument with `stop >= start`: the three bounds tests in the order of the code,
then the copy. -/
theorem primitiveReplaceBytes_direct (s : Interpreter) (sp startAt stop start : Int)
    (arg rcv : Nat)
    (h0 : s.stack sp = .smallInteger startAt) (h1 : s.stack (sp - 1) = .smallInteger stop)
    (h2 : s.stack (sp - 2) = .smallInteger start) (h3 : s.stack (sp - 3) = .pointer arg)
    (h4 : s.stack (sp - 4) = .pointer rcv) (hbytes : (s.ote arg).isBytes = true)
    (hdirect : isIndirectObject s arg = false) (hle : start ≤ stop) :
    primitiveReplaceBytes s sp =
      if startAt < 1 ∨ start < 1 then some (.failure 4 s)
      else if stop > (s.ote arg).bytesSizeForUpdate then some (.failure 4 s)
      else if toInt32 (toInt32 (startAt + stop) - start) > ((s.ote rcv).bytesSize : Int) then
        some (.failure 4 s)
      else some (.success (sp - 4)
        { s with
          bytes := memmove s.bytes (((s.ote arg).m_location : Int) + start - 1).toNat
            (((s.ote rcv).m_location : Int) + startAt - 1).toNat
            (toSizeT (toInt32 (toInt32 (stop - start) + 1)))
          stack := Function.update s.stack (sp - 4) (.pointer arg) }) := by
  unfold isIndirectObject at hdirect
  unfold primitiveReplaceBytes
  simp only [h0, h1, h2, h3, h4, hdirect, hbytes, primitiveFailure]
  simp [hle]

/-- C2: whenever `primitiveReplaceBytes` succeeds with `stop >= start` on a
byte-bodied (not indirect) argument, the byte of the argument at 1-based index
`start + k` after the call is the byte the receiver had at 1-based index
`startAt + k` before the call, for every `0 <= k <= stop - start`; receiver and
argument may be the same object and the two ranges may overlap either way. -/
theorem primitiveReplaceBytes_copies (s st : Interpreter) (sp sp' startAt stop start : Int)
    (arg rcv : Nat)
    (h0 : s.stack sp = .smallInteger startAt) (h1 : s.stack (sp - 1) = .smallInteger stop)
    (h2 : s.stack (sp - 2) = .smallInteger start) (h3 : s.stack (sp - 3) = .pointer arg)
    (h4 : s.stack (sp - 4) = .pointer rcv) (hbytes : (s.ote arg).isBytes = true)
    (hdirect : isIndirectObject s arg = false)
    (hle : start ≤ stop) (hsucc : primitiveReplaceBytes s sp = some (.success sp' st)) :
    ∀ k : Int, 0 ≤ k → k ≤ stop - start →
      byteAt st arg (start + k) = byteAt s rcv (startAt + k) := by
  intro k hk0 hk
  rw [primitiveReplaceBytes_direct s sp startAt stop start arg rcv h0 h1 h2 h3 h4 hbytes
    hdirect hle] at hsucc
  split_ifs at hsucc with c1 c2 c3
  · simp at hsucc
  · simp at hsucc
  · simp at hsucc
  simp only [Option.some.injEq, PrimResult.success.injEq] at hsucc
  obtain ⟨-, rfl⟩ := hsucc
  simp only [byteAt, memmove_copyViaTemporary, copyViaTemporary]
  unfold OTE.bytesSizeForUpdate at c2
  unfold toInt32 at c2
  have hcount : toSizeT (toInt32 (toInt32 (stop - start) + 1)) = (stop - start + 1).toNat := by
    unfold toSizeT toInt32
    omega
  rw [hcount, if_pos (by omega)]
  congr 1
  omega

/-- Witness of C2: copying bytes 1..4 of an object onto its own bytes 3..6 (the
ranges overlap, destination above source); byte 5 afterwards is the old byte 3. -/
theorem primitiveReplaceBytes_copies_witness :
    primitiveReplaceBytes exampleOverlap 4 = some (.success 0 exampleAfterOverlap) ∧
    byteAt exampleAfterOverlap 1 (3 + 2) = byteAt exampleOverlap 1 (1 + 2) :=
  ⟨rfl, primitiveReplaceBytes_copies exampleOverlap exampleAfterOverlap 4 0 1 6 3 1 1
    rfl rfl rfl rfl rfl rfl rfl (by decide) rfl 2 (by decide) (by decide)⟩

/-- C3: for both replace primitives, when `startAt`, `stop` and `start` are
immediate integers, the argument is a byte object and `stop < start`, the
primitive succeeds with new stack top `sp - 4`; the state it leaves differs from
the state before only in the stack slot `sp - 4`, which now holds the argument
reference (no byte, descriptor or other slot changes), whatever the values of
`start`, `stop`, `startAt` and whatever the receiver slot holds. -/
theorem replaceBytes_empty_range (s : Interpreter) (sp startAt stop start : Int) (arg : Nat)
    (h0 : s.stack sp = .smallInteger startAt) (h1 : s.stack (sp - 1) = .smallInteger stop)
    (h2 : s.stack (sp - 2) = .smallInteger start) (h3 : s.stack (sp - 3) = .pointer arg)
    (hbytes : (s.ote arg).isBytes = true) (hlt : stop < start) :
    primitiveReplaceBytes s sp =
        some (.success (sp - 4)
          { s with stack := Function.update s.stack (sp - 4) (.pointer arg) }) ∧
    primitiveIndirectReplaceBytes s sp =
        some (.success (sp - 4)
          { s with stack := Function.update s.stack (sp - 4) (.pointer arg) }) := by
  have hn : ¬ start ≤ stop := by omega
  constructor
  · unfold primitiveReplaceBytes
    simp only [h0, h1, h2, h3, hbytes]
    simp [hn]
  · unfold primitiveIndirectReplaceBytes
    simp only [h0, h1, h2, h3, hbytes]
    simp [hn]

/-- Witness of C3: `start = 0`, `stop = -5`, `startAt = 0` on an immutable
argument succeeds as a no-op in both primitives. -/
theorem replaceBytes_empty_range_witness :
    primitiveReplaceBytes exampleEmptyRange 4 =
        some (.success (4 - 4)
          { exampleEmptyRange with
            stack := Function.update exampleEmptyRange.stack (4 - 4) (.pointer 2) }) ∧
    primitiveIndirectReplaceBytes exampleEmptyRange 4 =
        some (.success (4 - 4)
          { exampleEmptyRange with
            stack := Function.update exampleEmptyRange.stack (4 - 4) (.pointer 2) }) :=
  replaceBytes_empty_range exampleEmptyRange 4 0 (-5) 0 2 rfl rfl rfl rfl rfl (by decide)

/-- The masked length and the raw signed length of a size word agree when the
object is mutable; the raw signed length is negative when it is immutable. -/
theorem bytesSizeForUpdate_cases (o : OTE) :
    (o.bytesSize : Int) = (o.m_size : Int) % 2147483648 ∧
    (o.isImmutable = false → o.bytesSizeForUpdate = (o.bytesSize : Int)) ∧
    (o.isImmutable = true → o.bytesSizeForUpdate < 0) := by
  have hmask : o.bytesSize = o.m_size % 2147483648 := by
    unfold OTE.bytesSize OTE.SizeMask
    exact Nat.and_pow_two_sub_one_eq_mod o.m_size 31
  unfold OTE.isImmutable OTE.bytesSizeForUpdate toInt32
  rw [hmask]
  simp only [decide_eq_false_iff_not, decide_eq_true_eq]
  omega

/-- C4: `primitiveReplaceBytes` on immediate integers `startAt`, `stop`, `start`
with `stop >= start` and a byte-bodied, not indirect argument succeeds exactly
when `startAt >= 1`, `start >= 1`, the argument is mutable and of length at
least `stop`, and the declared length of the receiver is at least
`startAt + stop - start`; in every other case, in particular for every immutable
argument, it fails with code 4 and leaves the state as it was. -/
theorem primitiveReplaceBytes_succeeds_iff (s : Interpreter) (sp startAt stop start : Int)
    (arg rcv : Nat)
    (h0 : s.stack sp = .smallInteger startAt) (h1 : s.stack (sp - 1) = .smallInteger stop)
    (h2 : s.stack (sp - 2) = .smallInteger start) (h3 : s.stack (sp - 3) = .pointer arg)
    (h4 : s.stack (sp - 4) = .pointer rcv) (hbytes : (s.ote arg).isBytes = true)
    (hdirect : isIndirectObject s arg = false) (hle : start ≤ stop)
    (r0 : isSmallIntegerValue startAt) (r1 : isSmallIntegerValue stop)
    (r2 : isSmallIntegerValue start) :
    ((∃ sp' st, primitiveReplaceBytes s sp = some (.success sp' st)) ↔
      (1 ≤ startAt ∧ 1 ≤ start ∧ (s.ote arg).isImmutable = false ∧
        stop ≤ ((s.ote arg).bytesSize : Int) ∧
        startAt + stop - start ≤ ((s.ote rcv).bytesSize : Int))) ∧
    (¬ (1 ≤ startAt ∧ 1 ≤ start ∧ (s.ote arg).isImmutable = false ∧
        stop ≤ ((s.ote arg).bytesSize : Int) ∧
        startAt + stop - start ≤ ((s.ote rcv).bytesSize : Int)) →
      primitiveReplaceBytes s sp = some (.failure 4 s)) ∧
    ((s.ote arg).isImmutable = true → primitiveReplaceBytes s sp = some (.failure 4 s)) := by
  have hcode := primitiveReplaceBytes_direct s sp startAt stop start arg rcv h0 h1 h2 h3 h4
    hbytes hdirect hle
  obtain ⟨-, hmut, himm⟩ := bytesSizeForUpdate_cases (s.ote arg)
  unfold isSmallIntegerValue at r0 r1 r2
  have fails : ¬ (1 ≤ startAt ∧ 1 ≤ start ∧ (s.ote arg).isImmutable = false ∧
        stop ≤ ((s.ote arg).bytesSize : Int) ∧
        startAt + stop - start ≤ ((s.ote rcv).bytesSize : Int)) →
      primitiveReplaceBytes s sp = some (.failure 4 s) := by
    intro hno
    rw [hcode]
    by_cases c1 : startAt < 1 ∨ start < 1
    · rw [if_pos c1]
    rw [if_neg c1]
    by_cases c2 : stop > (s.ote arg).bytesSizeForUpdate
    · rw [if_pos c2]
    rw [if_neg c2]
    have hstopAt : toInt32 (toInt32 (startAt + stop) - start) = startAt + stop - start := by
      unfold toInt32
      omega
    rw [hstopAt, if_pos]
    cases himmut : (s.ote arg).isImmutable
    · have := hmut himmut
      simp only [himmut, true_and] at hno
      omega
    · have := himm himmut
      omega
  refine ⟨⟨?_, ?_⟩, fails, ?_⟩
  · rintro ⟨sp', st, hs⟩
    by_contra hno
    rw [fails hno] at hs
    simp at hs
  · rintro ⟨a1, a2, a3, a4, a5⟩
    have := hmut a3
    have hstopAt : toInt32 (toInt32 (startAt + stop) - start) = startAt + stop - start := by
      unfold toInt32
      omega
    rw [hcode, hstopAt, if_neg (by omega), if_neg (by omega), if_neg (by omega)]
    exact ⟨_, _, rfl⟩
  · intro himmut
    apply fails
    simp [himmut]

/-- Witness of C4: with `start = 3`, `stop = 4`, `startAt = 1` on the mutable
descriptor 1 of 8 bytes all conditions hold and the primitive succeeds. -/
theorem primitiveReplaceBytes_succeeds_iff_witness :
    (∃ sp' st, primitiveReplaceBytes exampleDirect 4 = some (.success sp' st)) :=
  ((primitiveReplaceBytes_succeeds_iff exampleDirect 4 1 4 3 1 1 rfl rfl rfl rfl rfl rfl rfl
    (by decide) (by decide) (by decide) (by decide)).1).2 (by decide)

/-- C5 (the code at the failing input): on the immutable byte-bodied argument 2
with `start = 1`, `stop = 2`, `startAt = 1` the direct primitive fails with code
4 at its argument-side check, whereas the indirect primitive, which takes the
length with the mutability bit masked, succeeds and overwrites bytes 1..2 of the
immutable argument (byte 1 was 200 and becomes 100). -/
theorem primitiveIndirectReplaceBytes_immutable_argument :
    (exampleImmutableArgument.ote 2).isImmutable = true ∧
    isIndirectObject exampleImmutableArgument 2 = false ∧
    primitiveReplaceBytes exampleImmutableArgument 4 =
      some (.failure 4 exampleImmutableArgument) ∧
    primitiveIndirectReplaceBytes exampleImmutableArgument 4 =
      some (.success 0
        { exampleImmutableArgument with
          bytes := memmove exampleImmutableArgument.bytes 200 100 2
          stack := Function.update exampleImmutableArgument.stack 0 (.pointer 2) }) ∧
    byteAt exampleImmutableArgument 2 1 = 200 ∧
    byteAt { exampleImmutableArgument with
        bytes := memmove exampleImmutableArgument.bytes 200 100 2 } 2 1 = 100 := by
  refine ⟨by decide, by decide, rfl, rfl, by decide, by decide⟩

/-- C6: both replace primitives report type errors in a fixed order before
anything else: failure code 0 if `startAt` is not an immediate integer; else code
1 if `stop` is not; else code 2 if `start` is not; else code 3 if the argument is
an immediate integer or not a byte object. Nothing is assumed about the slots
after the first failing one, nor about the relation of `stop` and `start`. -/
theorem replaceBytes_type_errors (s : Interpreter) (sp : Int) :
    (ObjectMemoryIsIntegerObject (s.stack sp) = false →
      primitiveReplaceBytes s sp = some (.failure 0 s) ∧
      primitiveIndirectReplaceBytes s sp = some (.failure 0 s)) ∧
    (ObjectMemoryIsIntegerObject (s.stack sp) = true →
      ObjectMemoryIsIntegerObject (s.stack (sp - 1)) = false →
      primitiveReplaceBytes s sp = some (.failure 1 s) ∧
      primitiveIndirectReplaceBytes s sp = some (.failure 1 s)) ∧
    (ObjectMemoryIsIntegerObject (s.stack sp) = true →
      ObjectMemoryIsIntegerObject (s.stack (sp - 1)) = true →
      ObjectMemoryIsIntegerObject (s.stack (sp - 2)) = false →
      primitiveReplaceBytes s sp = some (.failure 2 s) ∧
      primitiveIndirectReplaceBytes s sp = some (.failure 2 s)) ∧
    (ObjectMemoryIsIntegerObject (s.stack sp) = true →
      ObjectMemoryIsIntegerObject (s.stack (sp - 1)) = true →
      ObjectMemoryIsIntegerObject (s.stack (sp - 2)) = true →
      (ObjectMemoryIsIntegerObject (s.stack (sp - 3)) = true ∨
        ∃ p, s.stack (sp - 3) = .pointer p ∧ (s.ote p).isBytes = false) →
      primitiveReplaceBytes s sp = some (.failure 3 s) ∧
      primitiveIndirectReplaceBytes s sp = some (.failure 3 s)) := by
  unfold primitiveReplaceBytes primitiveIndirectReplaceBytes
  refine ⟨?_, ?_, ?_, ?_⟩
  · intro a0
    cases e0 : s.stack sp <;> simp_all [ObjectMemoryIsIntegerObject, primitiveFailure]
  · intro a0 a1
    cases e0 : s.stack sp <;> cases e1 : s.stack (sp - 1) <;>
      simp_all [ObjectMemoryIsIntegerObject, primitiveFailure]
  · intro a0 a1 a2
    cases e0 : s.stack sp <;> cases e1 : s.stack (sp - 1) <;> cases e2 : s.stack (sp - 2) <;>
      simp_all [ObjectMemoryIsIntegerObject, primitiveFailure]
  · intro a0 a1 a2 a3
    cases e0 : s.stack sp <;> cases e1 : s.stack (sp - 1) <;> cases e2 : s.stack (sp - 2) <;>
      cases e3 : s.stack (sp - 3) <;>
      simp_all [ObjectMemoryIsIntegerObject, primitiveFailure]

/-- Witness of C6: `stop` and `start` are both heap references and the argument
is an immediate; the code reported is 1, that of the first failing check. -/
theorem replaceBytes_type_errors_witness :
    primitiveReplaceBytes exampleTypeErrors 4 = some (.failure 1 exampleTypeErrors) ∧
    primitiveIndirectReplaceBytes exampleTypeErrors 4 = some (.failure 1 exampleTypeErrors) :=
  (replaceBytes_type_errors exampleTypeErrors 4).2.1 rfl rfl

/-! ## The search primitive -/

/-- The search loop, started at the 0-based offset `from_` with at least
`to_ - from_` iterations allowed, answers an immediate integer `a`: either `a` is
zero and no offset in `[from_, to_)` holds the byte, or `a - 1` is the least
offset in `[from_, to_)` that holds it. -/
theorem nextIndexOfLoop_spec (m_characters : Nat → BYTE) (charValue : BYTE) (to_ : Int)
    (fuel : Nat) : ∀ from_ : Int, 0 ≤ from_ → (to_ - from_).toNat ≤ fuel →
    ∃ a : Int, nextIndexOfLoop m_characters charValue to_ fuel from_ = .smallInteger a ∧
      ((a = 0 ∧ ∀ j : Int, from_ ≤ j → j < to_ → m_characters j.toNat ≠ charValue) ∨
       (from_ < a ∧ a ≤ to_ ∧ m_characters (a - 1).toNat = charValue ∧
         ∀ j : Int, from_ ≤ j → j < a - 1 → m_characters j.toNat ≠ charValue)) := by
  induction fuel with
  | zero =>
    intro from_ h0 hfuel
    refine ⟨0, rfl, Or.inl ⟨rfl, fun j hj1 hj2 => ?_⟩⟩
    omega
  | succ n ih =>
    intro from_ h0 hfuel
    unfold nextIndexOfLoop
    by_cases hlt : from_ < to_
    · rw [if_pos hlt]
      by_cases heq : m_characters from_.toNat = charValue
      · rw [if_pos heq]
        refine ⟨from_ + 1, rfl, Or.inr ⟨by omega, by omega, ?_, fun j hj1 hj2 => ?_⟩⟩
        · simpa using heq
        · omega
      · rw [if_neg heq]
        obtain ⟨a, ha, hspec⟩ := ih (from_ + 1) (by omega) (by omega)
        refine ⟨a, ha, ?_⟩
        have step : ∀ j : Int, from_ ≤ j → j < from_ + 1 → m_characters j.toNat ≠ charValue := by
          intro j hj1 hj2
          have : j = from_ := by omega
          rw [this]
          exact heq
        rcases hspec with ⟨hz, hnone⟩ | ⟨h1, h2, h3, h4⟩
        · refine Or.inl ⟨hz, fun j hj1 hj2 => ?_⟩
          by_cases hj : j < from_ + 1
          · exact step j hj1 hj
          · exact hnone j (by omega) hj2
        · refine Or.inr ⟨by omega, h2, h3, fun j hj1 hj2 => ?_⟩
          by_cases hj : j < from_ + 1
          · exact step j hj1 hj
          · exact h4 j (by omega) hj2
    · rw [if_neg hlt]
      refine ⟨0, rfl, Or.inl ⟨rfl, fun j hj1 hj2 => ?_⟩⟩
      omega

/-- The search primitive on integer bounds `to >= from`, a Character value whose
code point is an immediate integer, and a receiver that is a heap object: the
bounds test, then the loop. -/
theorem primitiveStringNextIndexOfFromTo_search (s : Interpreter) (sp to_ from_ codePoint : Int)
    (value rcv : Nat)
    (h0 : s.stack sp = .smallInteger to_) (h1 : s.stack (sp - 1) = .smallInteger from_)
    (h2 : s.stack (sp - 2) = .pointer value) (h3 : s.stack (sp - 3) = .pointer rcv)
    (hclass : (s.ote value).m_oteClass = s.ClassCharacter)
    (hcode : (s.character (s.ote value).m_location).m_codePoint = .smallInteger codePoint)
    (hle : from_ ≤ to_) :
    primitiveStringNextIndexOfFromTo s sp =
      if from_ < 1 ∨ to_ > ((s.ote rcv).bytesSize : Int) then some (.failure 2 s)
      else some (.success (sp - 3)
        { s with
          stack := Function.update s.stack (sp - 3)
            (nextIndexOfLoop (fun i => s.bytes ((s.ote rcv).m_location + i)) (toBYTE codePoint)
              to_ (to_ - (from_ - 1)).toNat (from_ - 1)) }) := by
  unfold primitiveStringNextIndexOfFromTo
  simp only [h0, h1, h2, h3, hcode, fetchClassOf, hclass, primitiveFailure]
  simp [hle]

/-- C7: with a Character value of code point `c` (a byte value), integers `to`
and `from` and `1 <= from <= to <=` receiver length, the search primitive
succeeds and answers, in the receiver slot, the immediate integer `a` where `a`
is the least 1-based index in `[from, to]` whose byte equals `c`, and `a` is zero
when no byte in that range equals `c`. In particular the answer is `to` when `c`
occurs at index `to` and nowhere in `[from, to - 1]`. -/
theorem primitiveStringNextIndexOfFromTo_least (s : Interpreter) (sp to_ from_ : Int)
    (value rcv : Nat) (c : BYTE)
    (h0 : s.stack sp = .smallInteger to_) (h1 : s.stack (sp - 1) = .smallInteger from_)
    (h2 : s.stack (sp - 2) = .pointer value) (h3 : s.stack (sp - 3) = .pointer rcv)
    (hclass : (s.ote value).m_oteClass = s.ClassCharacter)
    (hcode : (s.character (s.ote value).m_location).m_codePoint = .smallInteger (c.val : Int))
    (hfrom : 1 ≤ from_) (hle : from_ ≤ to_) (hto : to_ ≤ ((s.ote rcv).bytesSize : Int)) :
    ∃ a : Int,
      primitiveStringNextIndexOfFromTo s sp =
        some (.success (sp - 3)
          { s with stack := Function.update s.stack (sp - 3) (.smallInteger a) }) ∧
      ((a = 0 ∧ ∀ i : Int, from_ ≤ i → i ≤ to_ → byteAt s rcv i ≠ c) ∨
       (from_ ≤ a ∧ a ≤ to_ ∧ byteAt s rcv a = c ∧
         ∀ i : Int, from_ ≤ i → i < a → byteAt s rcv i ≠ c)) ∧
      (byteAt s rcv to_ = c → (∀ i : Int, from_ ≤ i → i < to_ → byteAt s rcv i ≠ c) →
        a = to_) := by
  have hbyte : toBYTE (c.val : Int) = c := by
    apply Fin.ext
    have := c.isLt
    simp only [toBYTE]
    omega
  have hread : ∀ i : Int, 1 ≤ i →
      (fun k => s.bytes ((s.ote rcv).m_location + k)) (i - 1).toNat = byteAt s rcv i := by
    intro i hi
    simp only [byteAt]
    congr 1
    omega
  obtain ⟨a, ha, hspec⟩ := nextIndexOfLoop_spec (fun k => s.bytes ((s.ote rcv).m_location + k))
    c to_ (to_ - (from_ - 1)).toNat (from_ - 1) (by omega) (le_refl _)
  have hmain : (a = 0 ∧ ∀ i : Int, from_ ≤ i → i ≤ to_ → byteAt s rcv i ≠ c) ∨
      (from_ ≤ a ∧ a ≤ to_ ∧ byteAt s rcv a = c ∧
         ∀ i : Int, from_ ≤ i → i < a → byteAt s rcv i ≠ c) := by
    rcases hspec with ⟨hz, hnone⟩ | ⟨b1, b2, b3, b4⟩
    · refine Or.inl ⟨hz, fun i hi1 hi2 => ?_⟩
      rw [← hread i (by omega)]
      exact hnone (i - 1) (by omega) (by omega)
    · refine Or.inr ⟨by omega, b2, ?_, fun i hi1 hi2 => ?_⟩
      · rw [← hread a (by omega)]
        exact b3
      · rw [← hread i (by omega)]
        exact b4 (i - 1) (by omega) (by omega)
  refine ⟨a, ?_, hmain, fun hat hbefore => ?_⟩
  · rw [primitiveStringNextIndexOfFromTo_search s sp to_ from_ c.val value rcv h0 h1 h2 h3 hclass
      hcode hle, if_neg (by omega), hbyte, ha]
  · rcases hmain with ⟨-, hnone⟩ | ⟨b1, b2, b3, -⟩
    · exact absurd hat (hnone to_ hle (le_refl _))
    · by_contra hne
      exact hbefore a b1 (by omega) b3

/-- Witness of C7: searching bytes 2..6 of the object holding 100, 101, ..., 107
for code point 103 answers index 4. -/
theorem primitiveStringNextIndexOfFromTo_least_witness :
    ∃ a : Int,
      primitiveStringNextIndexOfFromTo exampleSearch 3 =
        some (.success (3 - 3)
          { exampleSearch with
            stack := Function.update exampleSearch.stack (3 - 3) (.smallInteger a) }) ∧
      ((a = 0 ∧ ∀ i : Int, 2 ≤ i → i ≤ 6 → byteAt exampleSearch 1 i ≠ 103) ∨
       (2 ≤ a ∧ a ≤ 6 ∧ byteAt exampleSearch 1 a = 103 ∧
         ∀ i : Int, 2 ≤ i → i < a → byteAt exampleSearch 1 i ≠ 103)) ∧
      (byteAt exampleSearch 1 6 = 103 →
        (∀ i : Int, 2 ≤ i → i < 6 → byteAt exampleSearch 1 i ≠ 103) → a = 6) :=
  primitiveStringNextIndexOfFromTo_least exampleSearch 3 6 2 1103 1 103 rfl rfl rfl rfl rfl rfl
    (by decide) (by decide) (by decide)

/-- C8 as stated fails: the value is the immediate 5, whose class is not
Character, and `to` is not an immediate integer; the primitive fails with code 0
and does not succeed. -/
theorem primitiveStringNextIndexOfFromTo_to_not_integer :
    fetchClassOf exampleSearchToNotInteger (exampleSearchToNotInteger.stack (3 - 2)) ≠
      exampleSearchToNotInteger.ClassCharacter ∧
    ObjectMemoryIsIntegerObject (exampleSearchToNotInteger.stack 3) = false ∧
    primitiveStringNextIndexOfFromTo exampleSearchToNotInteger 3 =
      some (.failure 0 exampleSearchToNotInteger) ∧
    ¬ ∃ sp' st, primitiveStringNextIndexOfFromTo exampleSearchToNotInteger 3 =
      some (.success sp' st) := by
  have hrun : primitiveStringNextIndexOfFromTo exampleSearchToNotInteger 3 =
      some (.failure 0 exampleSearchToNotInteger) := rfl
  refine ⟨by decide, rfl, hrun, ?_⟩
  rintro ⟨sp', st, h⟩
  rw [hrun] at h
  simp at h

/-- C8 (amended): the integer-type checks on `to` and `from` come first. For
every call in which the class of the value is not exactly Character, the
primitive fails with code 0 if `to` is not an immediate integer, else with code 1
if `from` is not an immediate integer, and only when both are immediate integers
does it succeed with the immediate zero, in the receiver slot, as its result. -/
theorem primitiveStringNextIndexOfFromTo_not_character (s : Interpreter) (sp : Int)
    (hclass : fetchClassOf s (s.stack (sp - 2)) ≠ s.ClassCharacter) :
    (ObjectMemoryIsIntegerObject (s.stack sp) = false →
      primitiveStringNextIndexOfFromTo s sp = some (.failure 0 s)) ∧
    (ObjectMemoryIsIntegerObject (s.stack sp) = true →
      ObjectMemoryIsIntegerObject (s.stack (sp - 1)) = false →
      primitiveStringNextIndexOfFromTo s sp = some (.failure 1 s)) ∧
    (ObjectMemoryIsIntegerObject (s.stack sp) = true →
      ObjectMemoryIsIntegerObject (s.stack (sp - 1)) = true →
      primitiveStringNextIndexOfFromTo s sp =
        some (.success (sp - 3)
          { s with stack := Function.update s.stack (sp - 3) ZeroPointer })) := by
  unfold primitiveStringNextIndexOfFromTo
  refine ⟨?_, ?_, ?_⟩
  · intro a0
    cases e0 : s.stack sp <;> simp_all [ObjectMemoryIsIntegerObject, primitiveFailure]
  · intro a0 a1
    cases e0 : s.stack sp <;> cases e1 : s.stack (sp - 1) <;>
      simp_all [ObjectMemoryIsIntegerObject, primitiveFailure]
  · intro a0 a1
    cases e0 : s.stack sp <;> cases e1 : s.stack (sp - 1) <;>
      simp_all [ObjectMemoryIsIntegerObject, primitiveFailure]

/-- Witness of C8 (amended): the value is the immediate 5 and `from` is not an
immediate integer; the primitive fails with code 1. -/
theorem primitiveStringNextIndexOfFromTo_not_character_witness :
    primitiveStringNextIndexOfFromTo exampleSearchFromNotInteger 3 =
      some (.failure 1 exampleSearchFromNotInteger) :=
  (primitiveStringNextIndexOfFromTo_not_character exampleSearchFromNotInteger 3
    (by decide)).2.1 rfl rfl

/-- C9: with immediate integers `to` and `from`, if `to < from` or the class of
the value is not Character, the search primitive succeeds and answers the
immediate zero in the receiver slot; the receiver slot is not inspected and
neither bound is compared with any length, so failure code 2 cannot arise. -/
theorem primitiveStringNextIndexOfFromTo_no_search (s : Interpreter) (sp to_ from_ : Int)
    (h0 : s.stack sp = .smallInteger to_) (h1 : s.stack (sp - 1) = .smallInteger from_)
    (hskip : to_ < from_ ∨ fetchClassOf s (s.stack (sp - 2)) ≠ s.ClassCharacter) :
    primitiveStringNextIndexOfFromTo s sp =
      some (.success (sp - 3)
        { s with stack := Function.update s.stack (sp - 3) ZeroPointer }) := by
  unfold primitiveStringNextIndexOfFromTo
  simp only [h0, h1]
  rw [if_neg]
  rintro ⟨hc, hge⟩
  rcases hskip with hlt | hne
  · omega
  · exact hne hc

/-- Witness of C9: `from = 1000000`, `to = 2` on a receiver of 8 bytes answers
zero. -/
theorem primitiveStringNextIndexOfFromTo_no_search_witness :
    primitiveStringNextIndexOfFromTo exampleSearchEmptyRange 3 =
      some (.success (3 - 3)
        { exampleSearchEmptyRange with
          stack := Function.update exampleSearchEmptyRange.stack (3 - 3) ZeroPointer }) :=
  primitiveStringNextIndexOfFromTo_no_search exampleSearchEmptyRange 3 2 1000000 rfl rfl
    (Or.inl (by decide))

/-- C10: with a Character value and immediate integers `to >= from`, the search
primitive fails with code 2 (leaving the state as it was) exactly when
`from < 1` or `to` exceeds the receiver's size word with the mutability bit
masked out; otherwise it succeeds. Whether the receiver is immutable plays no
part. -/
theorem primitiveStringNextIndexOfFromTo_bounds (s : Interpreter) (sp to_ from_ codePoint : Int)
    (value rcv : Nat)
    (h0 : s.stack sp = .smallInteger to_) (h1 : s.stack (sp - 1) = .smallInteger from_)
    (h2 : s.stack (sp - 2) = .pointer value) (h3 : s.stack (sp - 3) = .pointer rcv)
    (hclass : (s.ote value).m_oteClass = s.ClassCharacter)
    (hcode : (s.character (s.ote value).m_location).m_codePoint = .smallInteger codePoint)
    (hle : from_ ≤ to_) :
    ((from_ < 1 ∨ to_ > (((s.ote rcv).m_size % 2147483648 : Nat) : Int)) →
      primitiveStringNextIndexOfFromTo s sp = some (.failure 2 s)) ∧
    (¬ (from_ < 1 ∨ to_ > (((s.ote rcv).m_size % 2147483648 : Nat) : Int)) →
      ∃ st, primitiveStringNextIndexOfFromTo s sp = some (.success (sp - 3) st)) ∧
    ((∃ st, primitiveStringNextIndexOfFromTo s sp = some (.failure 2 st)) ↔
      (from_ < 1 ∨ to_ > (((s.ote rcv).m_size % 2147483648 : Nat) : Int))) := by
  have hmask : (s.ote rcv).bytesSize = (s.ote rcv).m_size % 2147483648 := by
    unfold OTE.bytesSize OTE.SizeMask
    exact Nat.and_pow_two_sub_one_eq_mod (s.ote rcv).m_size 31
  have hrun := primitiveStringNextIndexOfFromTo_search s sp to_ from_ codePoint value rcv
    h0 h1 h2 h3 hclass hcode hle
  rw [hmask] at hrun
  refine ⟨fun hc => ?_, fun hc => ?_, ⟨?_, fun hc => ?_⟩⟩
  · rw [hrun, if_pos hc]
  · rw [hrun, if_neg hc]
    exact ⟨_, rfl⟩
  · rintro ⟨st, hst⟩
    by_contra hc
    rw [hrun, if_neg hc] at hst
    simp at hst
  · exact ⟨s, by rw [hrun, if_pos hc]⟩

/-- Witness of C10: the immutable receiver 2 of 4 bytes is searched from 1 to 4
like a mutable one, successfully. -/
theorem primitiveStringNextIndexOfFromTo_bounds_witness :
    ∃ st, primitiveStringNextIndexOfFromTo exampleSearchImmutable 3 =
      some (.success (3 - 3) st) :=
  (primitiveStringNextIndexOfFromTo_bounds exampleSearchImmutable 3 4 1 203 1203 2
    rfl rfl rfl rfl rfl rfl (by decide)).2.1 (by decide)

/-! ## Indexed read and write -/

/-- The masked size word is the size word modulo `2^31`. -/
theorem and_SizeMask (m : Nat) : m &&& OTE.SizeMask = m % 2147483648 := by
  unfold OTE.SizeMask
  exact Nat.and_pow_two_sub_one_eq_mod m 31

/-- The indexed read on an immediate integer index and a heap-object receiver:
the bounds test on the masked size, then the wrapped byte. -/
theorem primitiveStringAt_integer (s : Interpreter) (sp index : Int) (rcv : Nat)
    (h0 : s.stack sp = .smallInteger index) (h1 : s.stack (sp - 1) = .pointer rcv) :
    primitiveStringAt s sp =
      if index > 0 ∧ toSizeT index ≤ (s.ote rcv).m_size % 2147483648 then
        some (.success (sp - 1)
          { s with
            stack := Function.update s.stack (sp - 1)
              (.pointer (s.CharacterNew (byteAt s rcv index))) })
      else some (.failure 1 s) := by
  unfold primitiveStringAt
  simp only [h0, h1, and_SizeMask, primitiveFailure, byteAt]

/-- C11: `primitiveStringAt` fails with code 0 when the index is not an
immediate integer. With an immediate integer index it succeeds exactly when
`1 <= index <= n`, `n` being the size word of the receiver with the mutability
bit masked out, so that an immutable receiver reads like a mutable one; the
result, in the single slot `sp - 1`, is then the Character made from the byte at
0-based offset `index - 1`. Otherwise it fails with code 1. -/
theorem primitiveStringAt_spec (s : Interpreter) (sp : Int) :
    (ObjectMemoryIsIntegerObject (s.stack sp) = false →
      primitiveStringAt s sp = some (.failure 0 s)) ∧
    (∀ (index : Int) (rcv : Nat), s.stack sp = .smallInteger index →
      s.stack (sp - 1) = .pointer rcv → isSmallIntegerValue index →
      ((1 ≤ index ∧ index ≤ (((s.ote rcv).m_size % 2147483648 : Nat) : Int)) →
        primitiveStringAt s sp =
          some (.success (sp - 1)
            { s with
              stack := Function.update s.stack (sp - 1)
                (.pointer (s.CharacterNew (byteAt s rcv index))) })) ∧
      (¬ (1 ≤ index ∧ index ≤ (((s.ote rcv).m_size % 2147483648 : Nat) : Int)) →
        primitiveStringAt s sp = some (.failure 1 s)) ∧
      ((∃ sp' st, primitiveStringAt s sp = some (.success sp' st)) ↔
        (1 ≤ index ∧ index ≤ (((s.ote rcv).m_size % 2147483648 : Nat) : Int)))) := by
  constructor
  · intro a0
    unfold primitiveStringAt
    cases e0 : s.stack sp <;> simp_all [ObjectMemoryIsIntegerObject, primitiveFailure]
  · intro index rcv h0 h1 hrange
    have hrun := primitiveStringAt_integer s sp index rcv h0 h1
    unfold isSmallIntegerValue at hrange
    have hcond : (index > 0 ∧ toSizeT index ≤ (s.ote rcv).m_size % 2147483648) ↔
        (1 ≤ index ∧ index ≤ (((s.ote rcv).m_size % 2147483648 : Nat) : Int)) := by
      unfold toSizeT
      omega
    have hyes : (1 ≤ index ∧ index ≤ (((s.ote rcv).m_size % 2147483648 : Nat) : Int)) →
        primitiveStringAt s sp =
          some (.success (sp - 1)
            { s with
              stack := Function.update s.stack (sp - 1)
                (.pointer (s.CharacterNew (byteAt s rcv index))) }) := by
      intro hc
      rw [hrun, if_pos (hcond.mpr hc)]
    have hno : ¬ (1 ≤ index ∧ index ≤ (((s.ote rcv).m_size % 2147483648 : Nat) : Int)) →
        primitiveStringAt s sp = some (.failure 1 s) := by
      intro hc
      rw [hrun, if_neg (fun h => hc (hcond.mp h))]
    refine ⟨hyes, hno, ⟨?_, fun hc => ⟨_, _, hyes hc⟩⟩⟩
    rintro ⟨sp', st, hs⟩
    by_contra hc
    rw [hno hc] at hs
    simp at hs

/-- Witness of C11: reading index 4 of the immutable byte object 2 of 4 bytes
succeeds and answers the Character made from the byte 203. -/
theorem primitiveStringAt_spec_witness :
    primitiveStringAt exampleAtImmutable 1 =
      some (.success (1 - 1)
        { exampleAtImmutable with
          stack := Function.update exampleAtImmutable.stack (1 - 1)
            (.pointer (exampleAtImmutable.CharacterNew (byteAt exampleAtImmutable 2 4))) }) :=
  ((primitiveStringAt_spec exampleAtImmutable 1).2 4 2 rfl rfl (by decide)).1 (by decide)

/-- The indexed write on a heap-object receiver and an immediate integer index:
the bounds test on the raw signed size, then the test of the value. -/
theorem primitiveStringAtPut_integer (s : Interpreter) (sp index : Int) (rcv : Nat)
    (h2 : s.stack (sp - 2) = .pointer rcv) (h1 : s.stack (sp - 1) = .smallInteger index) :
    primitiveStringAtPut s sp =
      if index > 0 ∧ index ≤ toInt32 (s.ote rcv).m_size then
        match s.stack sp with
        | .smallInteger _ => some (.failure 2 s)
        | .pointer oopValue =>
          if (s.ote oopValue).m_oteClass = s.ClassCharacter then
            match (s.character (s.ote oopValue).m_location).m_codePoint with
            | .pointer _ => none
            | .smallInteger codePoint =>
              some (.success (sp - 2)
                { s with
                  bytes := Function.update s.bytes
                    (((s.ote rcv).m_location : Int) + (index - 1)).toNat (toBYTE codePoint)
                  stack := Function.update s.stack (sp - 2) (s.stack sp) })
          else some (.failure 2 s)
      else some (.failure 1 s) := by
  unfold primitiveStringAtPut
  simp only [h2, h1, primitiveFailure]

/-- C12: on an immutable receiver `primitiveStringAtPut` fails with code 1 for
every immediate integer index, whatever the value slot holds, and hands back
the state unchanged (no byte is written). -/
theorem primitiveStringAtPut_immutable (s : Interpreter) (sp index : Int) (rcv : Nat)
    (h2 : s.stack (sp - 2) = .pointer rcv) (h1 : s.stack (sp - 1) = .smallInteger index)
    (himm : (s.ote rcv).isImmutable = true) :
    primitiveStringAtPut s sp = some (.failure 1 s) := by
  rw [primitiveStringAtPut_integer s sp index rcv h2 h1, if_neg]
  have hneg := (bytesSizeForUpdate_cases (s.ote rcv)).2.2 himm
  unfold OTE.bytesSizeForUpdate at hneg
  omega

/-- Witness of C12: writing at index 1 of the immutable byte object 2 fails with
code 1. -/
theorem primitiveStringAtPut_immutable_witness :
    primitiveStringAtPut exampleAtPutImmutable 2 = some (.failure 1 exampleAtPutImmutable) :=
  primitiveStringAtPut_immutable exampleAtPutImmutable 2 1 2 rfl rfl (by decide)

/-- C13 as stated fails in its success clause: the Character written has code
point 321, every test passes and the primitive succeeds, but the byte at index
3 becomes 65, the low eight bits of 321, not the code point. -/
theorem primitiveStringAtPut_wide_code_point :
    (exampleAtPutWide.ote 1321).m_oteClass = exampleAtPutWide.ClassCharacter ∧
    (exampleAtPutWide.character (exampleAtPutWide.ote 1321).m_location).m_codePoint =
      .smallInteger 321 ∧
    primitiveStringAtPut exampleAtPutWide 2 =
      some (.success 0
        { exampleAtPutWide with
          bytes := Function.update exampleAtPutWide.bytes 102 65
          stack := Function.update exampleAtPutWide.stack 0 (.pointer 1321) }) ∧
    byteAt { exampleAtPutWide with
        bytes := Function.update exampleAtPutWide.bytes 102 65 } 1 3 = 65 ∧
    (((65 : BYTE).val : Int) ≠ 321) := by
  refine ⟨rfl, rfl, rfl, by decide, by decide⟩

/-- C13 (amended): the outcome of `primitiveStringAtPut`, in the order of the
tests: code 0 if the index is not an immediate integer; else code 1 if
`index < 1` or `index` exceeds the raw signed size of the receiver, whatever the
value is; else code 2 if the value is an immediate or its class is not
Character; else success with new stack top `sp - 2`, where the slot `sp - 2`
holds the value and the byte at 0-based offset `index - 1` has become the low
eight bits of the code point of the value (`codePoint mod 256`), which is the
code point itself when the code point is a byte value `0..255`. -/
theorem primitiveStringAtPut_order (s : Interpreter) (sp : Int) (rcv : Nat)
    (h2 : s.stack (sp - 2) = .pointer rcv) :
    (ObjectMemoryIsIntegerObject (s.stack (sp - 1)) = false →
      primitiveStringAtPut s sp = some (.failure 0 s)) ∧
    (∀ index : Int, s.stack (sp - 1) = .smallInteger index →
      ((index < 1 ∨ index > (s.ote rcv).bytesSizeForUpdate) →
        primitiveStringAtPut s sp = some (.failure 1 s)) ∧
      (¬ (index < 1 ∨ index > (s.ote rcv).bytesSizeForUpdate) →
        ((ObjectMemoryIsIntegerObject (s.stack sp) = true ∨
            ∃ v, s.stack sp = .pointer v ∧ (s.ote v).m_oteClass ≠ s.ClassCharacter) →
          primitiveStringAtPut s sp = some (.failure 2 s)) ∧
        (∀ (v : Nat) (codePoint : Int), s.stack sp = .pointer v →
          (s.ote v).m_oteClass = s.ClassCharacter →
          (s.character (s.ote v).m_location).m_codePoint = .smallInteger codePoint →
          ∃ st, primitiveStringAtPut s sp = some (.success (sp - 2) st) ∧
            st.stack = Function.update s.stack (sp - 2) (.pointer v) ∧
            st.ote = s.ote ∧
            st.bytes = Function.update s.bytes
              (((s.ote rcv).m_location : Int) + (index - 1)).toNat (byteAt st rcv index) ∧
            ((byteAt st rcv index).val : Int) = codePoint % 256 ∧
            (0 ≤ codePoint → codePoint ≤ 255 →
              ((byteAt st rcv index).val : Int) = codePoint)))) := by
  constructor
  · intro a1
    unfold primitiveStringAtPut
    cases e1 : s.stack (sp - 1) <;>
      simp_all [ObjectMemoryIsIntegerObject, primitiveFailure]
  · intro index h1
    have hrun := primitiveStringAtPut_integer s sp index rcv h2 h1
    unfold OTE.bytesSizeForUpdate
    refine ⟨fun hc => ?_, fun hc => ⟨fun hv => ?_, fun v codePoint h0 hclass hcode => ?_⟩⟩
    · rw [hrun, if_neg (by omega)]
    · rw [hrun, if_pos (by omega)]
      rcases hv with hv | ⟨v, hv, hne⟩
      · cases e0 : s.stack sp <;> simp_all [ObjectMemoryIsIntegerObject]
      · simp only [hv, if_neg hne]
    · rw [hrun, if_pos (by omega)]
      simp only [h0, hclass, hcode, if_true]
      have hread : byteAt
          { s with
            bytes := Function.update s.bytes
              (((s.ote rcv).m_location : Int) + (index - 1)).toNat (toBYTE codePoint)
            stack := Function.update s.stack (sp - 2) (.pointer v) } rcv index =
          toBYTE codePoint := by
        simp [byteAt]
      refine ⟨_, rfl, rfl, rfl, ?_, ?_, ?_⟩
      · rw [hread]
      · rw [hread]
        simp only [toBYTE]
        omega
      · rw [hread]
        simp only [toBYTE]
        omega

/-- Witness of C13 (amended): index 9 on a receiver of 8 bytes with a value that
is not a Character fails with code 1, the bounds test coming before the value
test; and the write of the Character of code point 65 at index 3 succeeds and
leaves a byte equal to that code point. -/
theorem primitiveStringAtPut_order_witness :
    primitiveStringAtPut exampleAtPutBeyond 2 = some (.failure 1 exampleAtPutBeyond) ∧
    ∃ st, primitiveStringAtPut exampleAtPut 2 = some (.success (2 - 2) st) ∧
      st.stack = Function.update exampleAtPut.stack (2 - 2) (.pointer 1065) ∧
      st.ote = exampleAtPut.ote ∧
      st.bytes = Function.update exampleAtPut.bytes
        (((exampleAtPut.ote 1).m_location : Int) + (3 - 1)).toNat (byteAt st 1 3) ∧
      ((byteAt st 1 3).val : Int) = 65 % 256 ∧
      ((0 : Int) ≤ 65 → (65 : Int) ≤ 255 → ((byteAt st 1 3).val : Int) = 65) :=
  ⟨((primitiveStringAtPut_order exampleAtPutBeyond 2 1 rfl).2 9 rfl).1 (Or.inr (by decide)),
    (((primitiveStringAtPut_order exampleAtPut 2 1 rfl).2 3 rfl).2 (by decide)).2 1065 65
      rfl rfl rfl⟩

/-- A byte value converted to `int` and back is the same byte. -/
theorem toBYTE_val (c : BYTE) : toBYTE (c.val : Int) = c := by
  apply Fin.ext
  have := c.isLt
  simp only [toBYTE]
  omega

/-- The allocator of the concrete object memory meets the contract of
`ST::Character::New`. -/
theorem exampleInterpreter_CharacterNewContract (slots : List Oop) :
    CharacterNewContract (exampleInterpreter slots) := by
  intro b
  have h : exampleTable (1000 + b.val) =
      { m_location := 1000 + b.val + 1000, m_oteClass := 7, m_size := 1, isBytes := false } := by
    unfold exampleTable
    rw [if_neg (by omega), if_neg (by omega), if_neg (by omega), if_neg (by omega),
      if_neg (by omega)]
  simp only [exampleInterpreter, h]
  refine ⟨trivial, ?_⟩
  have e : (((1000 + b.val + 1000 : Nat) : Int) - 2000) = ((b.val : Nat) : Int) := by omega
  rw [e]

/-- C14: on a mutable receiver of length `n`, for `1 <= i <= n` and a Character
of code point `c` (a byte value), the indexed write of the Character at `i`
succeeds; a following indexed read at `i` of the same receiver, on whatever
operand stack it is issued, succeeds and answers the reference that
`ST::Character::New` gives for the byte `c`, which under the contract of that
collaborator is a Character with the code point of the value written. -/
theorem primitiveStringAtPut_then_primitiveStringAt (s : Interpreter) (sp i : Int)
    (rcv value : Nat) (c : BYTE)
    (h2 : s.stack (sp - 2) = .pointer rcv) (h1 : s.stack (sp - 1) = .smallInteger i)
    (h0 : s.stack sp = .pointer value)
    (hmut : (s.ote rcv).isImmutable = false)
    (hi1 : 1 ≤ i) (hin : i ≤ ((s.ote rcv).bytesSize : Int))
    (hclass : (s.ote value).m_oteClass = s.ClassCharacter)
    (hcode : (s.character (s.ote value).m_location).m_codePoint = .smallInteger (c.val : Int)) :
    ∃ st, primitiveStringAtPut s sp = some (.success (sp - 2) st) ∧
      st.stack (sp - 2) = .pointer value ∧
      ∀ (stack2 : Int → Oop) (sp2 : Int), stack2 (sp2 - 1) = .pointer rcv →
        stack2 sp2 = .smallInteger i →
        primitiveStringAt { st with stack := stack2 } sp2 =
          some (.success (sp2 - 1)
            { st with
              stack := Function.update stack2 (sp2 - 1) (.pointer (s.CharacterNew c)) }) ∧
        (CharacterNewContract s →
          (st.ote (s.CharacterNew c)).m_oteClass = st.ClassCharacter ∧
          (st.character (st.ote (s.CharacterNew c)).m_location).m_codePoint =
            (s.character (s.ote value).m_location).m_codePoint) := by
  obtain ⟨hmask, hraw, -⟩ := bytesSizeForUpdate_cases (s.ote rcv)
  have hraw := hraw hmut
  unfold OTE.bytesSizeForUpdate at hraw
  have hwrite := primitiveStringAtPut_integer s sp i rcv h2 h1
  rw [if_pos (by omega)] at hwrite
  simp only [h0, hclass, hcode, if_true, toBYTE_val] at hwrite
  refine ⟨_, hwrite, by simp, fun stack2 sp2 g1 g0 => ⟨?_, fun hnew => ?_⟩⟩
  · rw [primitiveStringAt_integer _ sp2 i rcv g0 g1, if_pos]
    · simp [byteAt]
    · simp only [toSizeT]
      omega
  · have := hnew c
    simp only [hcode]
    exact this

/-- Witness of C14: writing the Character of code point 65 at index 3 of the
mutable byte object 1 and reading index 3 back. -/
theorem primitiveStringAtPut_then_primitiveStringAt_witness :
    ∃ st, primitiveStringAtPut exampleAtPut 2 = some (.success (2 - 2) st) ∧
      st.stack (2 - 2) = .pointer 1065 ∧
      ∀ (stack2 : Int → Oop) (sp2 : Int), stack2 (sp2 - 1) = .pointer 1 →
        stack2 sp2 = .smallInteger 3 →
        primitiveStringAt { st with stack := stack2 } sp2 =
          some (.success (sp2 - 1)
            { st with
              stack := Function.update stack2 (sp2 - 1)
                (.pointer (exampleAtPut.CharacterNew 65)) }) ∧
        (CharacterNewContract exampleAtPut →
          (st.ote (exampleAtPut.CharacterNew 65)).m_oteClass = st.ClassCharacter ∧
          (st.character (st.ote (exampleAtPut.CharacterNew 65)).m_location).m_codePoint =
            (exampleAtPut.character (exampleAtPut.ote 1065).m_location).m_codePoint) :=
  primitiveStringAtPut_then_primitiveStringAt exampleAtPut 2 3 1 1065 65 rfl rfl rfl
    (by decide) (by decide) (by decide) rfl rfl

/-- A failure of `primitiveReplaceBytes` hands back the state it was given. -/
theorem primitiveReplaceBytes_failure (s st : Interpreter) (sp : Int) (code : Nat)
    (h : primitiveReplaceBytes s sp = some (.failure code st)) : st = s := by
  unfold primitiveReplaceBytes at h
  simp only [primitiveFailure] at h
  repeat' split at h
  all_goals simp_all

/-- A failure of `primitiveIndirectReplaceBytes` hands back the state it was
given. -/
theorem primitiveIndirectReplaceBytes_failure (s st : Interpreter) (sp : Int) (code : Nat)
    (h : primitiveIndirectReplaceBytes s sp = some (.failure code st)) : st = s := by
  unfold primitiveIndirectReplaceBytes at h
  simp only [primitiveFailure] at h
  repeat' split at h
  all_goals simp_all

/-- Whatever `primitiveStringNextIndexOfFromTo` returns, a failure hands back
the state it was given and no byte has changed. -/
theorem primitiveStringNextIndexOfFromTo_state (s : Interpreter) (sp : Int) (r : PrimResult)
    (h : primitiveStringNextIndexOfFromTo s sp = some r) :
    r.state.bytes = s.bytes ∧ ∀ code st, r = .failure code st → st = s := by
  unfold primitiveStringNextIndexOfFromTo at h
  simp only [primitiveFailure] at h
  repeat' split at h
  all_goals simp_all [PrimResult.state]
  all_goals subst h
  all_goals simp

/-- Whatever `primitiveStringAt` returns, a failure hands back the state it was
given and no byte has changed. -/
theorem primitiveStringAt_state (s : Interpreter) (sp : Int) (r : PrimResult)
    (h : primitiveStringAt s sp = some r) :
    r.state.bytes = s.bytes ∧ ∀ code st, r = .failure code st → st = s := by
  unfold primitiveStringAt at h
  simp only [primitiveFailure] at h
  repeat' split at h
  all_goals simp_all [PrimResult.state]
  all_goals subst h
  all_goals simp

/-- A failure of `primitiveStringAtPut` hands back the state it was given. -/
theorem primitiveStringAtPut_failure (s st : Interpreter) (sp : Int) (code : Nat)
    (h : primitiveStringAtPut s sp = some (.failure code st)) : st = s := by
  unfold primitiveStringAtPut at h
  simp only [primitiveFailure] at h
  repeat' split at h
  all_goals simp_all

/-- C15: if any of the five primitives returns a failure, with whatever code,
the state it hands back is the state it was given: every byte, every descriptor
and every stack slot is as before the call. -/
theorem primitive_failure_atomic (s st : Interpreter) (sp : Int) (code : Nat)
    (h : primitiveReplaceBytes s sp = some (.failure code st) ∨
      primitiveIndirectReplaceBytes s sp = some (.failure code st) ∨
      primitiveStringNextIndexOfFromTo s sp = some (.failure code st) ∨
      primitiveStringAt s sp = some (.failure code st) ∨
      primitiveStringAtPut s sp = some (.failure code st)) :
    st = s ∧ st.bytes = s.bytes ∧ st.stack = s.stack ∧ st.ote = s.ote := by
  have key : st = s := by
    rcases h with h | h | h | h | h
    · exact primitiveReplaceBytes_failure s st sp code h
    · exact primitiveIndirectReplaceBytes_failure s st sp code h
    · exact (primitiveStringNextIndexOfFromTo_state s sp _ h).2 code st rfl
    · exact (primitiveStringAt_state s sp _ h).2 code st rfl
    · exact primitiveStringAtPut_failure s st sp code h
  subst key
  exact ⟨rfl, rfl, rfl, rfl⟩

/-- Witness of C15: the indexed write on the immutable byte object 2 fails with
code 1 and hands back the state it was given. -/
theorem primitive_failure_atomic_witness :
    primitiveStringAtPut exampleAtPutImmutable 2 = some (.failure 1 exampleAtPutImmutable) ∧
    (exampleAtPutImmutable = exampleAtPutImmutable ∧
      exampleAtPutImmutable.bytes = exampleAtPutImmutable.bytes ∧
      exampleAtPutImmutable.stack = exampleAtPutImmutable.stack ∧
      exampleAtPutImmutable.ote = exampleAtPutImmutable.ote) :=
  ⟨rfl, primitive_failure_atomic exampleAtPutImmutable exampleAtPutImmutable 2 1
    (Or.inr (Or.inr (Or.inr (Or.inr rfl))))⟩

/-- C16 as stated fails: the receiver 2 is immutable, the argument 1 is mutable
and valid, `start = 1`, `stop = 2`, `startAt = 1` lie within both objects; the
primitive succeeds and copies, it does not fail with code 4. -/
theorem primitiveReplaceBytes_immutable_receiver :
    (exampleImmutableReceiver.ote 2).isImmutable = true ∧
    (exampleImmutableReceiver.ote 1).isImmutable = false ∧
    primitiveReplaceBytes exampleImmutableReceiver 4 =
      some (.success 0 exampleAfterImmutableReceiver) ∧
    primitiveReplaceBytes exampleImmutableReceiver 4 ≠
      some (.failure 4 exampleImmutableReceiver) := by
  have hrun : primitiveReplaceBytes exampleImmutableReceiver 4 =
      some (.success 0 exampleAfterImmutableReceiver) := rfl
  refine ⟨by decide, by decide, hrun, ?_⟩
  rw [hrun]
  simp

/-- C16 (amended): the receiver-side bound check of `primitiveReplaceBytes` uses
the length of the receiver with the mutability bit masked out, so immutability
of the receiver plays no part: for integer operands with `stop >= start >= 1`,
`startAt >= 1` and a valid mutable byte-bodied argument, the call succeeds when
`startAt + stop - start` is within the masked length of the receiver, whether
the receiver is immutable or not, and fails with code 4 when it exceeds it. -/
theorem primitiveReplaceBytes_receiver_bound (s : Interpreter) (sp startAt stop start : Int)
    (arg rcv : Nat)
    (h0 : s.stack sp = .smallInteger startAt) (h1 : s.stack (sp - 1) = .smallInteger stop)
    (h2 : s.stack (sp - 2) = .smallInteger start) (h3 : s.stack (sp - 3) = .pointer arg)
    (h4 : s.stack (sp - 4) = .pointer rcv) (hbytes : (s.ote arg).isBytes = true)
    (hdirect : isIndirectObject s arg = false)
    (hstart : 1 ≤ start) (hle : start ≤ stop) (hstartAt : 1 ≤ startAt)
    (hmut : (s.ote arg).isImmutable = false) (harg : stop ≤ ((s.ote arg).bytesSize : Int))
    (r0 : isSmallIntegerValue startAt) (r1 : isSmallIntegerValue stop) :
    (startAt + stop - start ≤ (((s.ote rcv).m_size % 2147483648 : Nat) : Int) →
      ∃ st, primitiveReplaceBytes s sp = some (.success (sp - 4) st)) ∧
    (startAt + stop - start > (((s.ote rcv).m_size % 2147483648 : Nat) : Int) →
      primitiveReplaceBytes s sp = some (.failure 4 s)) := by
  have hcode := primitiveReplaceBytes_direct s sp startAt stop start arg rcv h0 h1 h2 h3 h4
    hbytes hdirect hle
  have hraw := (bytesSizeForUpdate_cases (s.ote arg)).2.1 hmut
  have hmask : (s.ote rcv).bytesSize = (s.ote rcv).m_size % 2147483648 :=
    and_SizeMask (s.ote rcv).m_size
  unfold isSmallIntegerValue at r0 r1
  have hstopAt : toInt32 (toInt32 (startAt + stop) - start) = startAt + stop - start := by
    unfold toInt32
    omega
  rw [hstopAt, hmask, if_neg (by omega), if_neg (by omega)] at hcode
  constructor
  · intro hc
    rw [hcode, if_neg (by omega)]
    exact ⟨_, rfl⟩
  · intro hc
    rw [hcode, if_pos hc]

/-- Witness of C16 (amended): with the immutable byte object 2 as receiver the
copy of its bytes 1..2 into the mutable byte object 1 succeeds. -/
theorem primitiveReplaceBytes_receiver_bound_witness :
    ∃ st, primitiveReplaceBytes exampleImmutableReceiver 4 = some (.success (4 - 4) st) :=
  (primitiveReplaceBytes_receiver_bound exampleImmutableReceiver 4 1 2 1 1 2 rfl rfl rfl rfl rfl
    rfl rfl (by decide) (by decide) (by decide) (by decide) (by decide) (by decide)
    (by decide)).1 (by decide)

/-- C17 as stated fails: with a heap reference in the index slot the indexed
read fails with code 0, which is not the code 1 it gives for index 0 and for
index 9 on a receiver of 8 bytes. -/
theorem primitiveStringAt_not_integer_code :
    ObjectMemoryIsIntegerObject (exampleAtNotInteger.stack 1) = false ∧
    primitiveStringAt exampleAtNotInteger 1 = some (.failure 0 exampleAtNotInteger) ∧
    primitiveStringAt exampleAtZero 1 = some (.failure 1 exampleAtZero) ∧
    primitiveStringAt exampleAtBeyond 1 = some (.failure 1 exampleAtBeyond) ∧
    primitiveStringAt exampleAtNotInteger 1 ≠ some (.failure 1 exampleAtNotInteger) := by
  have hrun : primitiveStringAt exampleAtNotInteger 1 =
      some (.failure 0 exampleAtNotInteger) := rfl
  refine ⟨rfl, hrun, rfl, rfl, ?_⟩
  rw [hrun]
  simp

/-- C17 (amended): `primitiveStringAt` fails with code 0 when the index is not
an immediate integer; the bounds code 1 is what it returns for index 0 and for
index `n + 1` on a receiver of length `n`. -/
theorem primitiveStringAt_failure_codes (s : Interpreter) (sp : Int) :
    (ObjectMemoryIsIntegerObject (s.stack sp) = false →
      primitiveStringAt s sp = some (.failure 0 s)) ∧
    (∀ (index : Int) (rcv : Nat), s.stack sp = .smallInteger index →
      s.stack (sp - 1) = .pointer rcv →
      (index = 0 ∨ index = (((s.ote rcv).m_size % 2147483648 : Nat) : Int) + 1) →
      primitiveStringAt s sp = some (.failure 1 s)) := by
  constructor
  · intro a0
    unfold primitiveStringAt
    cases e0 : s.stack sp <;> simp_all [ObjectMemoryIsIntegerObject, primitiveFailure]
  · intro index rcv h0 h1 hidx
    rw [primitiveStringAt_integer s sp index rcv h0 h1, if_neg]
    unfold toSizeT
    omega

/-- Witness of C17 (amended): a heap reference in the index slot gives code 0,
index 9 on a receiver of 8 bytes gives code 1. -/
theorem primitiveStringAt_failure_codes_witness :
    primitiveStringAt exampleAtNotInteger 1 = some (.failure 0 exampleAtNotInteger) ∧
    primitiveStringAt exampleAtBeyond 1 = some (.failure 1 exampleAtBeyond) :=
  ⟨(primitiveStringAt_failure_codes exampleAtNotInteger 1).1 rfl,
    (primitiveStringAt_failure_codes exampleAtBeyond 1).2 9 1 rfl rfl (Or.inr (by decide))⟩

/-! ## Bounds and frame of the writes -/

/-- C18: when `primitiveReplaceBytes` reaches the copy (integer operands in the
SmallInteger range, byte-bodied argument, `stop >= start`, success), every
offset written lies inside the argument, `0 <= start - 1 <= stop - 1 <` argument
length, every offset read lies inside the receiver,
`0 <= startAt - 1 <= startAt + stop - start - 1 <` receiver length, and the count
handed to `memmove` is `stop - start + 1 >= 1`; the bytes after the call are
those of that `memmove`. -/
theorem primitiveReplaceBytes_copy_in_bounds (s st : Interpreter)
    (sp sp' startAt stop start : Int) (arg rcv : Nat)
    (h0 : s.stack sp = .smallInteger startAt) (h1 : s.stack (sp - 1) = .smallInteger stop)
    (h2 : s.stack (sp - 2) = .smallInteger start) (h3 : s.stack (sp - 3) = .pointer arg)
    (h4 : s.stack (sp - 4) = .pointer rcv) (hbytes : (s.ote arg).isBytes = true)
    (hdirect : isIndirectObject s arg = false) (hle : start ≤ stop)
    (r0 : isSmallIntegerValue startAt) (r1 : isSmallIntegerValue stop)
    (hsucc : primitiveReplaceBytes s sp = some (.success sp' st)) :
    (0 ≤ start - 1 ∧ start - 1 ≤ stop - 1 ∧ stop - 1 < ((s.ote arg).bytesSize : Int)) ∧
    (0 ≤ startAt - 1 ∧ startAt - 1 ≤ startAt + stop - start - 1 ∧
      startAt + stop - start - 1 < ((s.ote rcv).bytesSize : Int)) ∧
    (1 ≤ stop - start + 1 ∧
      toSizeT (toInt32 (toInt32 (stop - start) + 1)) = (stop - start + 1).toNat) ∧
    st.bytes = memmove s.bytes ((s.ote arg).m_location + (start - 1).toNat)
      ((s.ote rcv).m_location + (startAt - 1).toNat) (stop - start + 1).toNat := by
  rw [primitiveReplaceBytes_direct s sp startAt stop start arg rcv h0 h1 h2 h3 h4 hbytes
    hdirect hle] at hsucc
  obtain ⟨hmask, hmut, himm⟩ := bytesSizeForUpdate_cases (s.ote arg)
  unfold isSmallIntegerValue at r0 r1
  split_ifs at hsucc with c1 c2 c3
  · simp at hsucc
  · simp at hsucc
  · simp at hsucc
  simp only [Option.some.injEq, PrimResult.success.injEq] at hsucc
  obtain ⟨-, rfl⟩ := hsucc
  have hstopAt : toInt32 (toInt32 (startAt + stop) - start) = startAt + stop - start := by
    unfold toInt32
    omega
  rw [hstopAt] at c3
  have hcount : toSizeT (toInt32 (toInt32 (stop - start) + 1)) = (stop - start + 1).toNat := by
    unfold toSizeT toInt32
    omega
  have hargLen : stop ≤ ((s.ote arg).bytesSize : Int) := by
    cases hi : (s.ote arg).isImmutable
    · have := hmut hi
      omega
    · have := himm hi
      omega
  have e1 : (((s.ote arg).m_location : Int) + start - 1).toNat =
      (s.ote arg).m_location + (start - 1).toNat := by omega
  have e2 : (((s.ote rcv).m_location : Int) + startAt - 1).toNat =
      (s.ote rcv).m_location + (startAt - 1).toNat := by omega
  refine ⟨by omega, by omega, ⟨by omega, hcount⟩, ?_⟩
  simp only [hcount, e1, e2]

/-- Witness of C18: the copy of bytes 1..4 of the byte object 1 of 8 bytes onto
its bytes 3..6. -/
theorem primitiveReplaceBytes_copy_in_bounds_witness :
    (0 ≤ (3 : Int) - 1 ∧ (3 : Int) - 1 ≤ 6 - 1 ∧
      (6 : Int) - 1 < ((exampleOverlap.ote 1).bytesSize : Int)) ∧
    (0 ≤ (1 : Int) - 1 ∧ (1 : Int) - 1 ≤ 1 + 6 - 3 - 1 ∧
      (1 : Int) + 6 - 3 - 1 < ((exampleOverlap.ote 1).bytesSize : Int)) ∧
    (1 ≤ (6 : Int) - 3 + 1 ∧
      toSizeT (toInt32 (toInt32 (6 - 3) + 1)) = ((6 : Int) - 3 + 1).toNat) ∧
    exampleAfterOverlap.bytes = memmove exampleOverlap.bytes
      ((exampleOverlap.ote 1).m_location + ((3 : Int) - 1).toNat)
      ((exampleOverlap.ote 1).m_location + ((1 : Int) - 1).toNat) ((6 : Int) - 3 + 1).toNat :=
  primitiveReplaceBytes_copy_in_bounds exampleOverlap exampleAfterOverlap 4 0 1 6 3 1 1
    rfl rfl rfl rfl rfl rfl rfl (by decide) (by decide) (by decide) rfl

/-- The bulk copy changes no byte outside the destination range. -/
theorem memmove_frame (mem : Nat → BYTE) (dst src count a : Nat)
    (h : a < dst ∨ dst + count ≤ a) : memmove mem dst src count a = mem a := by
  rw [memmove_copyViaTemporary]
  simp only [copyViaTemporary]
  rw [if_neg (by omega)]

/-- The indirect primitive on integer operands, a heap-object receiver and a
byte-bodied, not indirect argument with `stop >= start`: the two bounds tests in
the order of the code, then the copy from the address the receiver holds. -/
theorem primitiveIndirectReplaceBytes_direct (s : Interpreter) (sp startAt stop start : Int)
    (arg rcv : Nat)
    (h0 : s.stack sp = .smallInteger startAt) (h1 : s.stack (sp - 1) = .smallInteger stop)
    (h2 : s.stack (sp - 2) = .smallInteger start) (h3 : s.stack (sp - 3) = .pointer arg)
    (h4 : s.stack (sp - 4) = .pointer rcv) (hbytes : (s.ote arg).isBytes = true)
    (hdirect : isIndirectObject s arg = false) (hle : start ≤ stop) :
    primitiveIndirectReplaceBytes s sp =
      if start < 1 ∨ startAt < 1 then some (.failure 4 s)
      else if stop > ((s.ote arg).bytesSize : Int) then some (.failure 4 s)
      else some (.success (sp - 4)
        { s with
          bytes := memmove s.bytes (((s.ote arg).m_location : Int) + start - 1).toNat
            (((s.externalAddress (s.ote rcv).m_location).m_pointer : Int) + startAt - 1).toNat
            (toSizeT (toInt32 (toInt32 (stop - start) + 1)))
          stack := Function.update s.stack (sp - 4) (.pointer arg) }) := by
  unfold isIndirectObject at hdirect
  unfold primitiveIndirectReplaceBytes
  simp only [h0, h1, h2, h3, h4, hdirect, hbytes, primitiveFailure]
  simp [hle]

/-- Frame of a copy into a byte-bodied argument: if the bytes after the call are
those of a `memmove` to the argument offsets `start - 1 .. stop - 1`, with
`1 <= start <= stop <=` argument length, then the argument bytes at indices
outside `[start, stop]` and all bytes of an object with a disjoint body are
unchanged. -/
theorem replace_frame (s st : Interpreter) (stop start : Int) (arg rcv src : Nat)
    (hote : st.ote = s.ote)
    (hb : st.bytes = memmove s.bytes (((s.ote arg).m_location : Int) + start - 1).toNat src
      (stop - start + 1).toNat)
    (hstart : 1 ≤ start) (hle : start ≤ stop) (hlen : stop ≤ ((s.ote arg).bytesSize : Int)) :
    (∀ i : Int, 1 ≤ i → (i < start ∨ stop < i) → byteAt st arg i = byteAt s arg i) ∧
    (disjointBodies s arg rcv → ∀ j : Int, 1 ≤ j → j ≤ ((s.ote rcv).bytesSize : Int) →
      byteAt st rcv j = byteAt s rcv j) := by
  constructor
  · intro i hi hout
    simp only [byteAt, hote, hb]
    exact memmove_frame _ _ _ _ _ (by omega)
  · intro hdis j hj1 hj2
    unfold disjointBodies at hdis
    simp only [byteAt, hote, hb]
    exact memmove_frame _ _ _ _ _ (by omega)

/-- C19: frame of the writes. (1) A successful `primitiveReplaceBytes` or
`primitiveIndirectReplaceBytes` with `stop >= start` and a byte-bodied argument
changes no descriptor, leaves every argument byte at a 1-based index outside
`[start, stop]` unchanged, and leaves every byte of the receiver unchanged when
the receiver is a different object (its body shares no address with the body of
the argument). (2) A successful `primitiveStringAtPut` at index `i` leaves every
receiver byte at an index other than `i` unchanged. (3) `primitiveStringAt` and
`primitiveStringNextIndexOfFromTo` change no byte at all, whatever they
return. -/
theorem primitives_frame :
    (∀ (s st : Interpreter) (sp sp' startAt stop start : Int) (arg rcv : Nat),
      s.stack sp = .smallInteger startAt → s.stack (sp - 1) = .smallInteger stop →
      s.stack (sp - 2) = .smallInteger start → s.stack (sp - 3) = .pointer arg →
      s.stack (sp - 4) = .pointer rcv → (s.ote arg).isBytes = true →
      isIndirectObject s arg = false → start ≤ stop →
      (primitiveReplaceBytes s sp = some (.success sp' st) ∨
        primitiveIndirectReplaceBytes s sp = some (.success sp' st)) →
      st.ote = s.ote ∧
      (∀ i : Int, 1 ≤ i → (i < start ∨ stop < i) → byteAt st arg i = byteAt s arg i) ∧
      (disjointBodies s arg rcv → ∀ j : Int, 1 ≤ j → j ≤ ((s.ote rcv).bytesSize : Int) →
        byteAt st rcv j = byteAt s rcv j)) ∧
    (∀ (s st : Interpreter) (sp sp' index : Int) (rcv : Nat),
      s.stack (sp - 2) = .pointer rcv → s.stack (sp - 1) = .smallInteger index →
      primitiveStringAtPut s sp = some (.success sp' st) →
      st.ote = s.ote ∧
      ∀ j : Int, 1 ≤ j → j ≠ index → byteAt st rcv j = byteAt s rcv j) ∧
    (∀ (s : Interpreter) (sp : Int) (r : PrimResult),
      (primitiveStringAt s sp = some r ∨ primitiveStringNextIndexOfFromTo s sp = some r) →
      r.state.bytes = s.bytes) := by
  refine ⟨?_, ?_, ?_⟩
  · intro s st sp sp' startAt stop start arg rcv h0 h1 h2 h3 h4 hbytes hdirect hle hsucc
    have hcount : stop ≤ 2147483647 → 1 ≤ start →
        toSizeT (toInt32 (toInt32 (stop - start) + 1)) = (stop - start + 1).toNat := by
      intro a b
      unfold toSizeT toInt32
      omega
    obtain ⟨hmask, hmut, himm⟩ := bytesSizeForUpdate_cases (s.ote arg)
    rcases hsucc with hsucc | hsucc
    · rw [primitiveReplaceBytes_direct s sp startAt stop start arg rcv h0 h1 h2 h3 h4 hbytes
        hdirect hle] at hsucc
      split_ifs at hsucc with c1 c2 c3
      · simp at hsucc
      · simp at hsucc
      · simp at hsucc
      simp only [Option.some.injEq, PrimResult.success.injEq] at hsucc
      obtain ⟨-, rfl⟩ := hsucc
      have hargLen : stop ≤ ((s.ote arg).bytesSize : Int) := by
        cases hi : (s.ote arg).isImmutable
        · have := hmut hi
          omega
        · have := himm hi
          omega
      refine ⟨rfl, ?_⟩
      exact replace_frame s _ stop start arg rcv _ rfl
        (by rw [hcount (by omega) (by omega)]) (by omega) hle hargLen
    · rw [primitiveIndirectReplaceBytes_direct s sp startAt stop start arg rcv h0 h1 h2 h3 h4
        hbytes hdirect hle] at hsucc
      split_ifs at hsucc with c1 c2
      · simp at hsucc
      · simp at hsucc
      simp only [Option.some.injEq, PrimResult.success.injEq] at hsucc
      obtain ⟨-, rfl⟩ := hsucc
      refine ⟨rfl, ?_⟩
      exact replace_frame s _ stop start arg rcv _ rfl
        (by rw [hcount (by omega) (by omega)]) (by omega) hle (by omega)
  · intro s st sp sp' index rcv h2 h1 hsucc
    rw [primitiveStringAtPut_integer s sp index rcv h2 h1] at hsucc
    split_ifs at hsucc with c1
    · split at hsucc
      · simp at hsucc
      · split_ifs at hsucc with c2
        · split at hsucc
          · simp at hsucc
          · simp only [Option.some.injEq, PrimResult.success.injEq] at hsucc
            obtain ⟨-, rfl⟩ := hsucc
            refine ⟨rfl, fun j hj hne => ?_⟩
            simp only [byteAt]
            exact Function.update_noteq (by omega) _ _
        · simp at hsucc
    · simp at hsucc
  · intro s sp r hr
    rcases hr with hr | hr
    · exact (primitiveStringAt_state s sp r hr).1
    · exact (primitiveStringNextIndexOfFromTo_state s sp r hr).1

/-- Witness of C19: after copying bytes 1..2 of the byte object 2 onto bytes
1..2 of the different byte object 1, byte 3 of the argument and byte 1 of the
receiver are what they were. -/
theorem primitives_frame_witness :
    byteAt exampleAfterImmutableReceiver 1 3 = byteAt exampleImmutableReceiver 1 3 ∧
    byteAt exampleAfterImmutableReceiver 2 1 = byteAt exampleImmutableReceiver 2 1 :=
  ⟨(primitives_frame.1 exampleImmutableReceiver exampleAfterImmutableReceiver 4 0 1 2 1 1 2
      rfl rfl rfl rfl rfl rfl rfl (by decide) (Or.inl rfl)).2.1 3 (by decide)
      (Or.inr (by decide)),
    (primitives_frame.1 exampleImmutableReceiver exampleAfterImmutableReceiver 4 0 1 2 1 1 2
      rfl rfl rfl rfl rfl rfl rfl (by decide) (Or.inl rfl)).2.2 (by decide) 1 (by decide)
      (by decide)⟩

/-! ## The receiver bound -/

/-- C20: for immediate integers in the SmallInteger range with `stop >= start`,
`start >= 1` and `startAt >= 1`, the computation `startAt + stop - start` does not
overflow 32-bit signed arithmetic: the intermediate sum and the final value lie
in `[1, 2^31 - 1]`, the wrapped results equal the mathematical ones, and the
comparison of the wrapped `stopAt` with any length decides the true bound; in
`primitiveReplaceBytes`, once the argument-side check has passed, the failure
with code 4 occurs exactly when `startAt + stop - start` exceeds the length of
the receiver. -/
theorem stopAt_no_overflow (startAt stop start : Int)
    (r0 : isSmallIntegerValue startAt) (r1 : isSmallIntegerValue stop)
    (r2 : isSmallIntegerValue start) (hle : start ≤ stop) (hstart : 1 ≤ start)
    (hstartAt : 1 ≤ startAt) :
    (1 ≤ startAt + stop ∧ startAt + stop ≤ 2147483647) ∧
    (1 ≤ startAt + stop - start ∧ startAt + stop - start ≤ 2147483647) ∧
    toInt32 (startAt + stop) = startAt + stop ∧
    toInt32 (toInt32 (startAt + stop) - start) = startAt + stop - start ∧
    (∀ length : Int,
      toInt32 (toInt32 (startAt + stop) - start) > length ↔ startAt + stop - start > length) ∧
    (∀ (s : Interpreter) (sp : Int) (arg rcv : Nat),
      s.stack sp = .smallInteger startAt → s.stack (sp - 1) = .smallInteger stop →
      s.stack (sp - 2) = .smallInteger start → s.stack (sp - 3) = .pointer arg →
      s.stack (sp - 4) = .pointer rcv → (s.ote arg).isBytes = true →
      isIndirectObject s arg = false → stop ≤ (s.ote arg).bytesSizeForUpdate →
      (primitiveReplaceBytes s sp = some (.failure 4 s) ↔
        startAt + stop - start > ((s.ote rcv).bytesSize : Int))) := by
  unfold isSmallIntegerValue at r0 r1 r2
  have e1 : toInt32 (startAt + stop) = startAt + stop := by
    unfold toInt32
    omega
  have e2 : toInt32 (toInt32 (startAt + stop) - start) = startAt + stop - start := by
    unfold toInt32
    omega
  refine ⟨by omega, by omega, e1, e2, fun length => by rw [e2], ?_⟩
  intro s sp arg rcv h0 h1 h2 h3 h4 hbytes hdirect harg
  rw [primitiveReplaceBytes_direct s sp startAt stop start arg rcv h0 h1 h2 h3 h4 hbytes
    hdirect hle, e2, if_neg (by omega), if_neg (by omega)]
  constructor
  · intro h
    by_contra hc
    rw [if_neg hc] at h
    simp at h
  · intro hc
    rw [if_pos hc]

/-- Witness of C20: the largest operands, `startAt = stop = 2^30 - 1` and
`start = 1`: the sum is `2^31 - 2` and is not wrapped. -/
theorem stopAt_no_overflow_witness :
    toInt32 (toInt32 (1073741823 + 1073741823) - 1) = 1073741823 + 1073741823 - 1 :=
  (stopAt_no_overflow 1073741823 1073741823 1 (by decide) (by decide) (by decide) (by decide)
    (by decide) (by decide)).2.2.2.1

end Dolphin
